import Mathlib

/-!
Verification development for the HillVacuum map editor core: the editing-tool
state machine, the transactional edit-history engine, and the hull/brush
geometry helpers. Rust `f32` coordinates are embedded as rational numbers,
fallible constructors and fatal assertions as `Option`/`Except` results, and
the stateful editor as explicit state-passing functions.
-/

namespace HillVacuum

/-- A bidimensional point (glam `Vec2`), with rational coordinates standing in
for `f32`. -/
structure Vec2 where
  x : ℚ
  y : ℚ
deriving DecidableEq, Repr

/-- Modelled from the spec: the numeric policy compares coordinates with an
epsilon-tolerant "around-equal" predicate with two tolerances, a normal and a
narrow epsilon (the `f32` implementation in `utils/math` is not under `src/`).
The narrow tolerance. -/
def narrow_epsilon : ℚ := 1 / 128

/-- Modelled from the spec: the narrow "around-equal" comparison on scalars. -/
def around_equal_narrow (a b : ℚ) : Bool :=
  |a - b| ≤ narrow_epsilon

/-- Modelled from the spec: the narrow "around-equal" comparison on points,
holding when both coordinates are narrowly around-equal. -/
def Vec2.around_equal_narrow (a b : Vec2) : Bool :=
  HillVacuum.around_equal_narrow a.x b.x && HillVacuum.around_equal_narrow a.y b.y

/-- A rectangle with sides parallel to the x and y axis (`utils/hull.rs`). -/
structure Hull where
  top : ℚ
  bottom : ℚ
  left : ℚ
  right : ℚ
deriving DecidableEq, Repr

/-- `Hull::new`: construction asserts `top >= bottom && right >= left`; the
panic on violation is embedded as `none`. -/
def Hull.new (top bottom left right : ℚ) : Option Hull :=
  if bottom ≤ top ∧ left ≤ right then some ⟨top, bottom, left, right⟩ else none

/-- `Hull::width`. -/
def Hull.width (h : Hull) : ℚ := h.right - h.left

/-- `Hull::height`. -/
def Hull.height (h : Hull) : ℚ := h.top - h.bottom

/-- `Hull::top_left`. -/
def Hull.top_left (h : Hull) : Vec2 := ⟨h.left, h.top⟩

/-- `Hull::top_right`. -/
def Hull.top_right (h : Hull) : Vec2 := ⟨h.right, h.top⟩

/-- `Hull::bottom_left`. -/
def Hull.bottom_left (h : Hull) : Vec2 := ⟨h.left, h.bottom⟩

/-- `Hull::bottom_right`. -/
def Hull.bottom_right (h : Hull) : Vec2 := ⟨h.right, h.bottom⟩

/-- `Hull::from_opposite_vertexes`: a hull from two points used as opposite
vertexes of a rectangular shape; `None` when the points are narrowly
around-equal. In the source the inner `Hull::new` cannot panic because the
arguments are built with `max`/`min`. -/
def Hull.from_opposite_vertexes (a b : Vec2) : Option Hull :=
  if Vec2.around_equal_narrow a b then none
  else Hull.new (max a.y b.y) (min a.y b.y) (min a.x b.x) (max a.x b.x)

/-- The four corners of a rectangle (`Corner` in `utils/hull.rs`). -/
inductive Corner where
  | TopRight
  | TopLeft
  | BottomLeft
  | BottomRight
deriving DecidableEq, Repr

/-- `Corner::opposite_corner`: two clockwise steps from the corner (the source
computes this as `next_n_steps(self as usize, 2, 4)` on the discriminants
TopRight = 0, TopLeft = 1, BottomLeft = 2, BottomRight = 3). -/
def Corner.opposite_corner : Corner → Corner
  | .TopRight => .BottomLeft
  | .TopLeft => .BottomRight
  | .BottomLeft => .TopRight
  | .BottomRight => .TopLeft

/-- `Corner::horizontal_specular`. -/
def Corner.horizontal_specular : Corner → Corner
  | .TopRight => .TopLeft
  | .TopLeft => .TopRight
  | .BottomLeft => .BottomRight
  | .BottomRight => .BottomLeft

/-- `Corner::vertical_specular`. -/
def Corner.vertical_specular : Corner → Corner
  | .TopRight => .BottomRight
  | .TopLeft => .BottomLeft
  | .BottomLeft => .TopLeft
  | .BottomRight => .TopRight

/-- `Hull::corner_vertex`. -/
def Hull.corner_vertex (h : Hull) : Corner → Vec2
  | .TopRight => h.top_right
  | .TopLeft => h.top_left
  | .BottomLeft => h.bottom_left
  | .BottomRight => h.bottom_right

/-- The way a hull should be flipped (`Flip` in `utils/hull.rs`). -/
inductive Flip where
  | Above (mirror : ℚ)
  | Below (mirror : ℚ)
  | Left (mirror : ℚ)
  | Right (mirror : ℚ)
deriving DecidableEq, Repr

/-- How the hull was scaled (`ScaleResult` in `utils/hull.rs`). -/
inductive ScaleResult where
  | None
  | Scale (hull : Hull)
  | Flip (flip_queue : List Flip) (hull : Hull)
deriving DecidableEq, Repr

/-- `check_flip_left` inside `Hull::scaled` (the `check_flip_lower!` macro
instance for the left side): flips horizontally when the moved corner crossed
the left mirror. -/
def check_flip_left (hull : Hull) (c : Corner) (p : Vec2) (q : List Flip) :
    Corner × List Flip :=
  if hull.left ≤ p.x then (c, q)
  else (c.horizontal_specular, q ++ [Flip.Left hull.left])

/-- `check_flip_below` inside `Hull::scaled` (`check_flip_lower!` for the
bottom side). -/
def check_flip_below (hull : Hull) (c : Corner) (p : Vec2) (q : List Flip) :
    Corner × List Flip :=
  if hull.bottom ≤ p.y then (c, q)
  else (c.vertical_specular, q ++ [Flip.Below hull.bottom])

/-- `check_flip_right` inside `Hull::scaled` (`check_flip_higher!` for the
right side). -/
def check_flip_right (hull : Hull) (c : Corner) (p : Vec2) (q : List Flip) :
    Corner × List Flip :=
  if p.x ≤ hull.right then (c, q)
  else (c.horizontal_specular, q ++ [Flip.Right hull.right])

/-- `check_flip_above` inside `Hull::scaled` (`check_flip_higher!` for the top
side). -/
def check_flip_above (hull : Hull) (c : Corner) (p : Vec2) (q : List Flip) :
    Corner × List Flip :=
  if p.y ≤ hull.top then (c, q)
  else (c.vertical_specular, q ++ [Flip.Above hull.top])

/-- Sequencing of the two flip checks performed by `Hull::scaled` (the
`check_flips!` macro applies the two functions in array order). -/
def apply_flips (f g : Hull → Corner → Vec2 → List Flip → Corner × List Flip)
    (h : Hull) (c : Corner) (p : Vec2) : Corner × List Flip :=
  let r := f h c p []
  g h r.1 p r.2

/-- The flip-check dispatch of `Hull::scaled` (the `match selected_corner`
applying the two `check_flip_*` functions), computing the new selected corner
and the flip queue. -/
def scaled_flips (self : Hull) (selected_corner : Corner)
    (new_corner_position : Vec2) : Corner × List Flip :=
  match selected_corner with
  | .TopRight =>
    apply_flips check_flip_left check_flip_below self selected_corner
      new_corner_position
  | .TopLeft =>
    apply_flips check_flip_right check_flip_below self selected_corner
      new_corner_position
  | .BottomLeft =>
    apply_flips check_flip_right check_flip_above self selected_corner
      new_corner_position
  | .BottomRight =>
    apply_flips check_flip_left check_flip_above self selected_corner
      new_corner_position

/-- `Hull::scaled`: scales the hull according to the new position of the moved
corner. The Rust `&mut Corner` argument is embedded by returning the (possibly
specular-updated) corner together with the `ScaleResult`; on the `None` paths
the corner is returned unchanged, as the source only writes through the
reference on success. -/
def Hull.scaled (self : Hull) (selected_corner : Corner)
    (new_corner_position : Vec2) : Corner × ScaleResult :=
  if Vec2.around_equal_narrow new_corner_position
      (self.corner_vertex selected_corner) then
    (selected_corner, ScaleResult.None)
  else
    match Hull.from_opposite_vertexes new_corner_position
        (self.corner_vertex selected_corner.opposite_corner) with
    | none => (selected_corner, ScaleResult.None)
    | some hull =>
      if hull.width = 0 ∨ hull.height = 0 then
        (selected_corner, ScaleResult.None)
      else
        ((scaled_flips self selected_corner new_corner_position).1,
          if (scaled_flips self selected_corner new_corner_position).2 = [] then
            ScaleResult.Scale hull
          else
            ScaleResult.Flip
              (scaled_flips self selected_corner new_corner_position).2 hull)

/-- The tools (`Tool` in `tool.rs`). -/
inductive Tool where
  | Square
  | Triangle
  | Circle
  | FreeDraw
  | Thing
  | Entity
  | Vertex
  | Side
  | Snap
  | Clip
  | Shatter
  | Hollow
  | Scale
  | Shear
  | Rotate
  | Flip
  | Intersection
  | Merge
  | Subtract
  | Path
  | Zoom
  | Paint
deriving DecidableEq, Repr

/-- The information required to determine which tools can be enabled
(`ChangeConditions` in `tool.rs`); `usize` counters embedded as `Nat`. -/
structure ChangeConditions where
  ongoing_multi_frame_change : Bool
  ctrl_pressed : Bool
  space_pressed : Bool
  vertex_rounding_availability : Bool
  path_simulation_active : Bool
  quick_prop : Bool
  vx_merge_available : Bool
  split_available : Bool
  xtrusion_available : Bool
  things_catalog_empty : Bool
  no_props : Bool
  brushes_amount : Nat
  selected_brushes_amount : Nat
  things_amount : Nat
  selected_things_amount : Nat
  selected_platforms_amount : Nat
  any_selected_possible_platforms : Bool
deriving DecidableEq, Repr

/-- `Tool::conditions_met`: whether the tool can be enabled under the
snapshot. -/
def Tool.conditions_met (self : Tool) (cc : ChangeConditions) : Bool :=
  if cc.ongoing_multi_frame_change || cc.ctrl_pressed || cc.space_pressed then
    false
  else
    match self with
    | .Square | .Triangle | .Circle | .FreeDraw | .Zoom => true
    | .Thing => !cc.things_catalog_empty || cc.selected_things_amount != 0
    | .Entity => cc.brushes_amount + cc.things_amount > 0
    | .Paint =>
        cc.selected_brushes_amount + cc.selected_things_amount > 0 || !cc.no_props
    | .Vertex | .Side | .Clip | .Shatter | .Scale | .Shear | .Rotate | .Flip
    | .Hollow => cc.selected_brushes_amount != 0
    | .Path =>
        cc.selected_platforms_amount != 0 || cc.any_selected_possible_platforms
    | .Snap => cc.vertex_rounding_availability
    | .Merge | .Intersection => cc.selected_brushes_amount > 1
    | .Subtract =>
        cc.selected_brushes_amount == 1 && cc.brushes_amount > 1

/-- `ToolInterface::change_conditions_met` for `Tool`. Modelled from the spec:
the implementation is generated by the `ToolEnum` derive macro (the proc-macro
crate is not under `src/`) and delegates to `Tool::conditions_met`, the only
availability predicate the spec describes. -/
def Tool.change_conditions_met (self : Tool) (cc : ChangeConditions) : Bool :=
  self.conditions_met cc

/-- The currently active tool (`ActiveTool` in `tool.rs`). Each variant's
private transient struct (whose module is not under `src/`) is abstracted to
the data the in-`src/` code reads from it: the ongoing-multiframe-change flag
where the tool reports one, the side tool's intrusion flag, the subtract
tool's subtractee set, the zoom tool's drag selection and boxed previous tool,
and the map-preview tool's boxed previous tool plus its movement-simulator and
texture-animator snapshots (opaque values). -/
inductive ActiveTool where
  | Draw (ongoing : Bool)
  | Entity (ongoing : Bool)
  | Vertex (ongoing : Bool)
  | Side (ongoing : Bool) (intrusion : Bool)
  | Clip (ongoing : Bool)
  | Shatter
  | Subtract (subtractees : List Nat)
  | Scale (ongoing : Bool)
  | Shear (ongoing : Bool)
  | Rotate (ongoing : Bool)
  | Flip
  | Zoom (drag_selection : Option Hull) (previous_active_tool : ActiveTool)
  | Path (ongoing : Bool)
  | Paint (ongoing : Bool)
  | Thing
  | MapPreview (prev_tool : ActiveTool) (movement : Nat) (animators : Nat)
deriving DecidableEq, Repr

/-- `ActiveTool::default`: the draw tool with a fresh (non-dragging) square
cursor polygon and no drawn brushes. -/
def ActiveTool.default : ActiveTool := .Draw false

/-- `OngoingMultiframeChange::ongoing_multi_frame_change` for `ActiveTool`:
dispatches to the tools that track an in-progress continuous change and is
`false` for the others. -/
def ActiveTool.ongoing_multi_frame_change : ActiveTool → Bool
  | .Entity ongoing => ongoing
  | .Clip ongoing => ongoing
  | .Draw ongoing => ongoing
  | .Path ongoing => ongoing
  | .Rotate ongoing => ongoing
  | .Scale ongoing => ongoing
  | .Shear ongoing => ongoing
  | .Side ongoing _ => ongoing
  | .Vertex ongoing => ongoing
  | .Paint ongoing => ongoing
  | _ => false

/-- The per-frame snapshot of the entities-manager queries the in-`src/` tool
code performs. Modelled from the spec: the manager is an external collaborator
(spec section 6) whose storage is not under `src/`; each field is the result
of the corresponding query method. -/
structure EntitiesManager where
  any_selected_brushes : Bool
  entities_amount : Nat
  brushes_amount : Nat
  selected_brushes_amount : Nat
  any_selected_entities : Bool
deriving DecidableEq, Repr

/-- The type of entities snap to execute (`Snap` in `tool.rs`). -/
inductive Snap where
  | None
  | Entities
  | Things
  | Brushes
  | Vertexes
  | Sides
  | PathNodes
deriving DecidableEq, Repr

/-- `Snap::new`: the snap kind for the active tool and manager state. -/
def Snap.new (active_tool : ActiveTool) (manager : EntitiesManager) : Snap :=
  if active_tool.ongoing_multi_frame_change || !manager.any_selected_brushes then
    Snap.None
  else
    match active_tool with
    | .Entity _ => Snap.Entities
    | .Thing => Snap.Things
    | .Vertex _ => Snap.Vertexes
    | .Side _ _ => Snap.Sides
    | .Path _ => Snap.PathNodes
    | _ => Snap.Brushes

/-- `ActiveTool::drag_selection`, restricted to the state the embedding
retains: only the zoom tool's rectangular selection is modelled (the entity,
subtract, vertex, side and path tools' `Rect`s are UI-transient state in
modules not under `src/`), with `None` standing for `Rect::default()`. -/
def ActiveTool.drag_selection : ActiveTool → Option Hull
  | .Zoom ds _ => ds
  | _ => none

/-- `ZoomTool::tool`: a zoom tool boxing the previously active tool
(`std::mem::take(active_tool)` moves the previous tool into the box). -/
def ZoomTool.tool (drag_selection : Option Hull) (active_tool : ActiveTool) :
    ActiveTool :=
  .Zoom drag_selection active_tool

/-- The exit path of the zoom tool: `ActiveTool::update` replaces the active
tool with `std::mem::take` of the boxed previous tool once `ZoomTool::update`
returns it. Any other tool is left unchanged. -/
def ActiveTool.zoom_exit : ActiveTool → ActiveTool
  | .Zoom _ previous_active_tool => previous_active_tool
  | t => t

/-- The snapshots `MapPreviewTool::tool` takes from the drawing resources and
manager on entry. Modelled from the spec: `movement_simulators` and
`texture_animators` are opaque values computed by the manager. -/
structure PreviewBundle where
  movement_simulators : Nat
  texture_animators : Nat
deriving DecidableEq, Repr

/-- `MapPreviewTool::tool`: a map-preview tool boxing the previously active
tool and storing the movement simulators and texture animators computed from
the bundle. -/
def MapPreviewTool.tool (bundle : PreviewBundle) (active_tool : ActiveTool) :
    ActiveTool :=
  .MapPreview active_tool bundle.movement_simulators bundle.texture_animators

/-- `ActiveTool::toggle_map_preview`: exits the map preview by taking the
boxed previous tool, or enters it by boxing the current tool. -/
def ActiveTool.toggle_map_preview (self : ActiveTool) (bundle : PreviewBundle) :
    ActiveTool :=
  match self with
  | .MapPreview prev_tool _ _ => prev_tool
  | t => MapPreviewTool.tool bundle t

/-- `ActiveTool::change`: changes the tool if requested. The two leading
`assert!` calls are embedded as `Except.error`; on success the new active tool
is returned. The `Snap`, `Hollow`, `Intersection` and `Merge` arms run their
operation on the manager and `return` without replacing the tool, so they
yield `self` here (their manager effects are modelled separately); the
constructor arms build the requested tool with fresh transient state. -/
def ActiveTool.change (self : ActiveTool) (tool : Tool)
    (multiframe_edit : Bool) (cc : ChangeConditions) : Except String ActiveTool :=
  if !(tool.change_conditions_met cc) then
    .error "Requested tool change to unavailable tool"
  else if multiframe_edit then
    .error "Requested tool change during multiframe edit."
  else
    match self, tool with
    | .Zoom ds prev, .Zoom => .ok (.Zoom ds prev)
    | _, _ =>
      .ok
        (match tool with
        | .Square | .Triangle | .Circle | .FreeDraw => .Draw false
        | .Entity => .Entity false
        | .Vertex => .Vertex false
        | .Side => .Side false false
        | .Snap => self
        | .Zoom => ZoomTool.tool self.drag_selection self
        | .Subtract => .Subtract []
        | .Clip => .Clip false
        | .Shatter => .Shatter
        | .Hollow => self
        | .Scale => .Scale false
        | .Shear => .Shear false
        | .Rotate => .Rotate false
        | .Flip => .Flip
        | .Intersection => self
        | .Merge => self
        | .Path => .Path false
        | .Paint => .Paint false
        | .Thing => .Thing)

/-- The branch of `ActiveTool::fallback` below the `tool` redirection: acts on
the (non-zoom) tool the `match` selected. The `Self::Zoom(_) => unreachable!()`
arm (the zoom tool never wraps another zoom tool) is embedded as the identity.
`props_amount` is `bundle.clipboard.props_amount()`. -/
def ActiveTool.fallback_inner (tool : ActiveTool) (manager : EntitiesManager)
    (props_amount : Nat) : ActiveTool :=
  match tool with
  | .Draw _ | .MapPreview _ _ _ | .Thing => tool
  | .Entity _ =>
      if manager.entities_amount = 0 then ActiveTool.default else tool
  | .Zoom _ _ => tool
  | _ =>
    let guarded :=
      match tool with
      | .Clip ongoing => ongoing
      | .Side _ intrusion => intrusion
      | .Paint _ => manager.any_selected_entities || props_amount != 0
      | .Path _ => manager.any_selected_entities
      | _ => false
    if guarded then tool
    else if manager.brushes_amount = 0 then ActiveTool.default
    else
      match tool with
      | .Subtract _ =>
          if manager.selected_brushes_amount = 1 then tool
          else .Entity false
      | _ =>
          if manager.selected_brushes_amount ≠ 0 then tool
          else .Entity false

/-- `ActiveTool::fallback`: forcefully disables a tool and replaces it with
another if certain circumstances are met; for the zoom tool the replacement is
applied to the boxed previous tool. -/
def ActiveTool.fallback (self : ActiveTool) (manager : EntitiesManager)
    (props_amount : Nat) : ActiveTool :=
  match self with
  | .Zoom ds prev => .Zoom ds (prev.fallback_inner manager props_amount)
  | t => t.fallback_inner manager props_amount

/-- `ActiveTool::undo_redo_available` (and `Core::undo_redo_available`):
undo/redo is available while no multiframe change is ongoing. -/
def ActiveTool.undo_redo_available (self : ActiveTool) : Bool :=
  !self.ongoing_multi_frame_change

/-! Key-ordered association lists embed the entities-manager storage: entity
identifiers map to entity payloads, kept strictly sorted by identifier so that
spawn/despawn round-trips restore the representation exactly. -/

/-- Looks up the value stored under key `k`. -/
def al_lookup {α : Type} (k : Nat) : List (Nat × α) → Option α
  | [] => none
  | (j, v) :: rest => if j = k then some v else al_lookup k rest

/-- Inserts `v` under key `k`, keeping the list sorted and replacing any
existing entry for `k`. -/
def al_insert {α : Type} (k : Nat) (v : α) : List (Nat × α) → List (Nat × α)
  | [] => [(k, v)]
  | (j, w) :: rest =>
    if k < j then (k, v) :: (j, w) :: rest
    else if k = j then (k, v) :: rest
    else (j, w) :: al_insert k v rest

/-- Removes the first entry with key `k`, if any. -/
def al_erase {α : Type} (k : Nat) : List (Nat × α) → List (Nat × α)
  | [] => []
  | (j, w) :: rest => if j = k then rest else (j, w) :: al_erase k rest

/-- Applies `f` to the value stored under key `k`, in place. -/
def al_modify {α : Type} (k : Nat) (f : α → α) : List (Nat × α) → List (Nat × α)
  | [] => []
  | (j, w) :: rest => if j = k then (j, f w) :: rest else (j, w) :: al_modify k f rest

/-- Whether the keys are strictly increasing. -/
def al_sorted {α : Type} : List (Nat × α) → Bool
  | [] => true
  | [_] => true
  | (j, _) :: (k, w) :: rest => decide (j < k) && al_sorted ((k, w) :: rest)

/-- Whether every key is below the bound `n`. -/
def al_keys_lt {α : Type} (n : Nat) (l : List (Nat × α)) : Bool :=
  l.all fun e => e.1 < n

theorem al_sorted_cons {α : Type} {j : Nat} {v : α} {l : List (Nat × α)}
    (h : al_sorted ((j, v) :: l) = true) :
    al_sorted l = true ∧ ∀ i w, al_lookup i l = some w → j < i := by
  induction l generalizing j v with
  | nil => simp [al_lookup, al_sorted]
  | cons hd tl ih =>
    obtain ⟨k, w⟩ := hd
    rw [al_sorted, Bool.and_eq_true, decide_eq_true_eq] at h
    obtain ⟨hjk, hrest⟩ := h
    refine ⟨hrest, ?_⟩
    intro i u hu
    rw [al_lookup] at hu
    by_cases hik : k = i
    · omega
    · rw [if_neg hik] at hu
      have := (ih hrest).2 i u hu
      omega

theorem al_lookup_insert_self {α : Type} (k : Nat) (v : α) (l : List (Nat × α)) :
    al_lookup k (al_insert k v l) = some v := by
  induction l with
  | nil => simp [al_insert, al_lookup]
  | cons hd tl ih =>
    obtain ⟨j, w⟩ := hd
    by_cases h1 : k < j
    · simp [al_insert, if_pos h1, al_lookup]
    · by_cases h2 : k = j
      · subst h2
        simp [al_insert, al_lookup]
      · rw [al_insert, if_neg h1, if_neg h2, al_lookup,
          if_neg (fun h => h2 h.symm)]
        exact ih

theorem al_lookup_insert_ne {α : Type} {i k : Nat} (v : α) (l : List (Nat × α))
    (hik : i ≠ k) : al_lookup i (al_insert k v l) = al_lookup i l := by
  induction l with
  | nil =>
    have hki : ¬k = i := fun h => hik h.symm
    simp [al_insert, al_lookup, hki]
  | cons hd tl ih =>
    obtain ⟨j, w⟩ := hd
    by_cases h1 : k < j
    · rw [al_insert, if_pos h1, al_lookup, if_neg (fun h => hik h.symm)]
    · by_cases h2 : k = j
      · subst h2
        rw [al_insert, if_neg h1, if_pos rfl, al_lookup,
          if_neg (fun h => hik h.symm), al_lookup,
          if_neg (fun h => hik h.symm)]
      · rw [al_insert, if_neg h1, if_neg h2, al_lookup, al_lookup]
        by_cases h3 : j = i
        · rw [if_pos h3, if_pos h3]
        · rw [if_neg h3, if_neg h3]
          exact ih

theorem al_erase_insert {α : Type} {k : Nat} (v : α) {l : List (Nat × α)}
    (h : al_lookup k l = none) : al_erase k (al_insert k v l) = l := by
  induction l with
  | nil => simp [al_insert, al_erase]
  | cons hd tl ih =>
    obtain ⟨j, w⟩ := hd
    rw [al_lookup] at h
    by_cases hjk : j = k
    · rw [if_pos hjk] at h
      exact absurd h (by simp)
    · rw [if_neg hjk] at h
      by_cases h1 : k < j
      · rw [al_insert, if_pos h1, al_erase, if_pos rfl]
      · rw [al_insert, if_neg h1, if_neg (fun hh => hjk hh.symm), al_erase,
          if_neg hjk]
        rw [ih h]

theorem al_insert_erase {α : Type} {k : Nat} {v : α} {l : List (Nat × α)}
    (hs : al_sorted l = true) (h : al_lookup k l = some v) :
    al_insert k v (al_erase k l) = l := by
  induction l with
  | nil => simp [al_lookup] at h
  | cons hd tl ih =>
    obtain ⟨j, w⟩ := hd
    obtain ⟨hs', hlt⟩ := al_sorted_cons hs
    rw [al_lookup] at h
    by_cases hjk : j = k
    · rw [if_pos hjk] at h
      subst hjk
      obtain rfl : w = v := by simpa using h
      rw [al_erase, if_pos rfl]
      cases tl with
      | nil => simp [al_insert]
      | cons hd2 tl2 =>
        obtain ⟨j2, w2⟩ := hd2
        have hj2 : j < j2 := by
          refine hlt j2 w2 ?_
          rw [al_lookup, if_pos rfl]
        rw [al_insert, if_pos hj2]
    · rw [if_neg hjk] at h
      have hjk' : j < k := hlt k v h
      rw [al_erase, if_neg hjk, al_insert, if_neg (by omega),
        if_neg (by omega)]
      rw [ih hs' h]

theorem al_lookup_erase_self {α : Type} {k : Nat} {l : List (Nat × α)}
    (hs : al_sorted l = true) : al_lookup k (al_erase k l) = none := by
  induction l with
  | nil => rfl
  | cons hd tl ih =>
    obtain ⟨j, w⟩ := hd
    obtain ⟨hs', hlt⟩ := al_sorted_cons hs
    by_cases hjk : j = k
    · subst hjk
      rw [al_erase, if_pos rfl]
      cases hl : al_lookup j tl with
      | none => rfl
      | some u => exact absurd (hlt j u hl) (by omega)
    · rw [al_erase, if_neg hjk, al_lookup, if_neg hjk]
      exact ih hs'

theorem al_lookup_erase_ne {α : Type} {i k : Nat} (l : List (Nat × α))
    (hik : i ≠ k) : al_lookup i (al_erase k l) = al_lookup i l := by
  induction l with
  | nil => rfl
  | cons hd tl ih =>
    obtain ⟨j, w⟩ := hd
    by_cases hjk : j = k
    · subst hjk
      rw [al_erase, if_pos rfl, al_lookup, if_neg (fun h => hik h.symm)]
    · rw [al_erase, if_neg hjk, al_lookup, al_lookup]
      by_cases hji : j = i
      · rw [if_pos hji, if_pos hji]
      · rw [if_neg hji, if_neg hji]
        exact ih

theorem al_lookup_modify_self {α : Type} (k : Nat) (f : α → α)
    (l : List (Nat × α)) :
    al_lookup k (al_modify k f l) = (al_lookup k l).map f := by
  induction l with
  | nil => rfl
  | cons hd tl ih =>
    obtain ⟨j, w⟩ := hd
    by_cases hjk : j = k
    · rw [al_modify, if_pos hjk, al_lookup, if_pos hjk, al_lookup, if_pos hjk]
      rfl
    · rw [al_modify, if_neg hjk, al_lookup, if_neg hjk, al_lookup, if_neg hjk]
      exact ih

theorem al_lookup_modify_ne {α : Type} {i k : Nat} (f : α → α)
    (l : List (Nat × α)) (hik : i ≠ k) :
    al_lookup i (al_modify k f l) = al_lookup i l := by
  induction l with
  | nil => rfl
  | cons hd tl ih =>
    obtain ⟨j, w⟩ := hd
    by_cases hjk : j = k
    · subst hjk
      rw [al_modify, if_pos rfl, al_lookup, if_neg (fun h => hik h.symm),
        al_lookup, if_neg (fun h => hik h.symm)]
    · rw [al_modify, if_neg hjk, al_lookup, al_lookup]
      by_cases hji : j = i
      · rw [if_pos hji, if_pos hji]
      · rw [if_neg hji, if_neg hji]
        exact ih

theorem al_modify_modify {α : Type} (k : Nat) (f g : α → α)
    (l : List (Nat × α)) :
    al_modify k f (al_modify k g l) = al_modify k (fun v => f (g v)) l := by
  induction l with
  | nil => rfl
  | cons hd tl ih =>
    obtain ⟨j, w⟩ := hd
    by_cases hjk : j = k
    · rw [al_modify, if_pos hjk, al_modify, if_pos hjk, al_modify, if_pos hjk]
    · rw [al_modify, if_neg hjk, al_modify, if_neg hjk, al_modify, if_neg hjk,
        ih]

theorem al_modify_id {α : Type} {k : Nat} {v : α} {f : α → α}
    {l : List (Nat × α)} (h : al_lookup k l = some v) (hf : f v = v) :
    al_modify k f l = l := by
  induction l with
  | nil => rfl
  | cons hd tl ih =>
    obtain ⟨j, w⟩ := hd
    rw [al_lookup] at h
    by_cases hjk : j = k
    · rw [if_pos hjk] at h
      obtain rfl : w = v := by simpa using h
      rw [al_modify, if_pos hjk, hf]
    · rw [if_neg hjk] at h
      rw [al_modify, if_neg hjk, ih h]

theorem al_sorted_cons_intro {α : Type} {j : Nat} {v : α} {l : List (Nat × α)}
    (hs : al_sorted l = true) (hlt : ∀ i w, al_lookup i l = some w → j < i) :
    al_sorted ((j, v) :: l) = true := by
  cases l with
  | nil => rfl
  | cons hd tl =>
    obtain ⟨k, w⟩ := hd
    rw [al_sorted, Bool.and_eq_true, decide_eq_true_eq]
    exact ⟨hlt k w (by rw [al_lookup, if_pos rfl]), hs⟩

theorem al_sorted_insert {α : Type} (k : Nat) (v : α) {l : List (Nat × α)}
    (hs : al_sorted l = true) : al_sorted (al_insert k v l) = true := by
  induction l with
  | nil => rfl
  | cons hd tl ih =>
    obtain ⟨j, w⟩ := hd
    obtain ⟨hs', hlt⟩ := al_sorted_cons hs
    by_cases h1 : k < j
    · rw [al_insert, if_pos h1]
      refine al_sorted_cons_intro hs ?_
      intro i u hu
      rw [al_lookup] at hu
      by_cases hji : j = i
      · omega
      · rw [if_neg hji] at hu
        have := hlt i u hu
        omega
    · by_cases h2 : k = j
      · subst h2
        rw [al_insert, if_neg h1, if_pos rfl]
        exact al_sorted_cons_intro hs' hlt
      · rw [al_insert, if_neg h1, if_neg h2]
        refine al_sorted_cons_intro (ih hs') ?_
        intro i u hu
        by_cases hik : i = k
        · omega
        · rw [al_lookup_insert_ne v tl hik] at hu
          exact hlt i u hu

theorem al_sorted_erase {α : Type} (k : Nat) {l : List (Nat × α)}
    (hs : al_sorted l = true) : al_sorted (al_erase k l) = true := by
  induction l with
  | nil => rfl
  | cons hd tl ih =>
    obtain ⟨j, w⟩ := hd
    obtain ⟨hs', hlt⟩ := al_sorted_cons hs
    by_cases hjk : j = k
    · rw [al_erase, if_pos hjk]
      exact hs'
    · rw [al_erase, if_neg hjk]
      refine al_sorted_cons_intro (ih hs') ?_
      intro i u hu
      by_cases hik : i = k
      · subst hik
        rw [al_lookup_erase_self hs'] at hu
        exact absurd hu (by simp)
      · rw [al_lookup_erase_ne tl hik] at hu
        exact hlt i u hu

theorem al_sorted_modify {α : Type} (k : Nat) (f : α → α) {l : List (Nat × α)}
    (hs : al_sorted l = true) : al_sorted (al_modify k f l) = true := by
  induction l with
  | nil => rfl
  | cons hd tl ih =>
    obtain ⟨j, w⟩ := hd
    obtain ⟨hs', hlt⟩ := al_sorted_cons hs
    by_cases hjk : j = k
    · rw [al_modify, if_pos hjk]
      exact al_sorted_cons_intro hs' hlt
    · rw [al_modify, if_neg hjk]
      refine al_sorted_cons_intro (ih hs') ?_
      intro i u hu
      by_cases hik : i = k
      · subst hik
        rw [al_lookup_modify_self] at hu
        cases hl : al_lookup i tl with
        | none => rw [hl] at hu; exact absurd hu (by simp)
        | some x => exact hlt i x hl
      · rw [al_lookup_modify_ne f tl hik] at hu
        exact hlt i u hu

/-! The world the `UndoRedoInterface` mutates. The `EntitiesManager` storage
and the `edits_history` module are not under `src/`; the world state, the edit
records and the undo/redo stacks below are modelled from the spec (sections 3
and 4.2), while the interface operations mirror the `UndoRedoInterface`
methods in `core/mod.rs`. -/

/-- An ordered polygon (or path) as a cyclic vertex sequence, each vertex
carrying its selection flag. -/
abbrev VertexList := List (Vec2 × Bool)

/-- Modelled from the spec: an entity is a brush (convex polygon, selection
state, optional path, optional texture settings — the texture payload is
abstracted to an opaque `Nat`) or a thing (catalog id, position, selection
state). -/
inductive EntityData where
  | brush (polygon : VertexList) (selected : Bool) (path : Option VertexList)
      (texture : Option Nat)
  | thing (thing : Nat) (pos : Vec2) (selected : Bool)
deriving DecidableEq, Repr

/-- The selection flag of the entity. -/
def EntityData.selected : EntityData → Bool
  | .brush _ s _ _ => s
  | .thing _ _ s => s

/-- Sets the selection flag. -/
def EntityData.set_selected (b : Bool) : EntityData → EntityData
  | .brush p _ path tex => .brush p b path tex
  | .thing t pos _ => .thing t pos b

/-- Replaces a brush's polygon (identity on things). -/
def EntityData.set_polygon (p : VertexList) : EntityData → EntityData
  | .brush _ s path tex => .brush p s path tex
  | e => e

/-- Sets or removes a brush's path (identity on things). -/
def EntityData.set_path (path : Option VertexList) : EntityData → EntityData
  | .brush p s _ tex => .brush p s path tex
  | e => e

/-- Sets or removes a brush's texture settings (identity on things). -/
def EntityData.set_texture (tex : Option Nat) : EntityData → EntityData
  | .brush p s path _ => .brush p s path tex
  | e => e

/-- Changes a thing's catalog id (identity on brushes). -/
def EntityData.set_thing (t : Nat) : EntityData → EntityData
  | .thing _ pos s => .thing t pos s
  | e => e

/-- Sets the selection flag of the vertexes at the listed positions (counted
from `i`) to `b`. -/
def set_flags_from (idxs : List Nat) (b : Bool) : Nat → VertexList → VertexList
  | _, [] => []
  | i, (v, s) :: rest =>
    (v, if idxs.contains i then b else s) :: set_flags_from idxs b (i + 1) rest

/-- Sets the selection flag of the vertexes at positions `idxs` to `b`. -/
def set_flags (idxs : List Nat) (b : Bool) (l : VertexList) : VertexList :=
  set_flags_from idxs b 0 l

/-- The selection flag of the vertex at position `j`. -/
def flag_at : VertexList → Nat → Option Bool
  | [], _ => none
  | (v, s) :: _, 0 =>
    let _ := v
    some s
  | _ :: rest, j + 1 => flag_at rest j

theorem set_flags_from_roundtrip (idxs : List Nat) (b b' : Bool) :
    ∀ (l : VertexList) (i : Nat),
      (∀ j, idxs.contains j = true → i ≤ j → flag_at l (j - i) = some b') →
      set_flags_from idxs b' i (set_flags_from idxs b i l) = l := by
  intro l
  induction l with
  | nil => intro i _; rfl
  | cons hd tl ih =>
    obtain ⟨v, s⟩ := hd
    intro i h
    rw [set_flags_from, set_flags_from]
    congr 1
    · by_cases hc : idxs.contains i = true
      · have hsb : flag_at ((v, s) :: tl) (i - i) = some b' :=
          h i hc (Nat.le_refl i)
        rw [Nat.sub_self, flag_at] at hsb
        obtain rfl : s = b' := by simpa using hsb
        rw [if_pos hc]
      · rw [if_neg hc, if_neg hc]
    · refine ih (i + 1) ?_
      intro j hj hij
      have hj' : i ≤ j := by omega
      have := h j hj hj'
      have hsub : j - i = (j - (i + 1)) + 1 := by omega
      rw [hsub, flag_at] at this
      exact this

/-- Inserts a point at position `n` (`UndoRedoInterface::insert_free_draw_point`
target list operation); out-of-range indexes leave the list unchanged, the
source treats them as precondition violations. -/
def insert_at : Nat → Vec2 → List Vec2 → List Vec2
  | 0, p, l => p :: l
  | _ + 1, _, [] => []
  | n + 1, p, x :: xs => x :: insert_at n p xs

/-- Removes the point at position `n`. -/
def erase_at : Nat → List Vec2 → List Vec2
  | _, [] => []
  | 0, _ :: xs => xs
  | n + 1, x :: xs => x :: erase_at n xs

/-- The point at position `n`. -/
def point_at : List Vec2 → Nat → Option Vec2
  | [], _ => none
  | x :: _, 0 => some x
  | _ :: xs, n + 1 => point_at xs n

theorem erase_at_insert_at (p : Vec2) :
    ∀ (n : Nat) (l : List Vec2), n ≤ l.length →
      erase_at n (insert_at n p l) = l := by
  intro n
  induction n with
  | zero => intro l _; rfl
  | succ m ih =>
    intro l hl
    cases l with
    | nil => simp at hl
    | cons x xs =>
      rw [insert_at, erase_at]
      rw [ih xs (by simpa using hl)]

theorem insert_at_erase_at :
    ∀ (n : Nat) (l : List Vec2) (p : Vec2), point_at l n = some p →
      insert_at n p (erase_at n l) = l := by
  intro n
  induction n with
  | zero =>
    intro l p h
    cases l with
    | nil => simp [point_at] at h
    | cons x xs =>
      obtain rfl : x = p := by simpa [point_at] using h
      rfl
  | succ m ih =>
    intro l p h
    cases l with
    | nil => simp [point_at] at h
    | cons x xs =>
      rw [point_at] at h
      rw [erase_at, insert_at, ih xs p h]

/-- Modelled from the spec: the world state the undo/redo interface mutates —
the entity store (keyed by entity id), the subtract tool's subtractee set, and
the free-draw point list of the active draw/path tool. -/
structure World where
  entities : List (Nat × EntityData)
  subtractees : List (Nat × Unit)
  free_draw_points : List Vec2
  next_id : Nat
deriving DecidableEq, Repr

/-- The world representation invariant: both key-ordered stores are sorted. -/
def World.wf (w : World) : Bool :=
  al_sorted w.entities && al_sorted w.subtractees

/-- `UndoRedoInterface::select_entity`. -/
def World.select_entity (w : World) (id : Nat) : World :=
  { w with entities := al_modify id (EntityData.set_selected true) w.entities }

/-- `UndoRedoInterface::deselect_entity`. -/
def World.deselect_entity (w : World) (id : Nat) : World :=
  { w with entities := al_modify id (EntityData.set_selected false) w.entities }

/-- `UndoRedoInterface::spawn_brush` / `spawn_thing`: spawns the entity with
its full payload under the given id. -/
def World.spawn (w : World) (id : Nat) (data : EntityData) : World :=
  { w with entities := al_insert id data w.entities }

/-- `UndoRedoInterface::despawn_brush` / `despawn_thing`. -/
def World.despawn (w : World) (id : Nat) : World :=
  { w with entities := al_erase id w.entities }

/-- Vertex-set replacement through `UndoRedoInterface::brush_mut`. -/
def World.set_polygon (w : World) (id : Nat) (p : VertexList) : World :=
  { w with entities := al_modify id (EntityData.set_polygon p) w.entities }

/-- Vertex-selection toggle through `UndoRedoInterface::brush_mut`. -/
def World.set_vertex_flags (w : World) (id : Nat) (idxs : List Nat) (b : Bool) :
    World :=
  { w with
    entities :=
      al_modify id
        (fun e =>
          match e with
          | .brush poly s path tex => .brush (set_flags idxs b poly) s path tex
          | e => e)
        w.entities }

/-- Path-node-selection toggle through `UndoRedoInterface::moving_mut`. -/
def World.set_path_node_flags (w : World) (id : Nat) (idxs : List Nat)
    (b : Bool) : World :=
  { w with
    entities :=
      al_modify id
        (fun e =>
          match e with
          | .brush poly s (some nodes) tex =>
            .brush poly s (some (set_flags idxs b nodes)) tex
          | e => e)
        w.entities }

/-- `UndoRedoInterface::set_path`. -/
def World.set_path (w : World) (id : Nat) (path : VertexList) : World :=
  { w with entities := al_modify id (EntityData.set_path (some path)) w.entities }

/-- `UndoRedoInterface::remove_path`. -/
def World.remove_path (w : World) (id : Nat) : World :=
  { w with entities := al_modify id (EntityData.set_path none) w.entities }

/-- `UndoRedoInterface::set_texture_settings` / `remove_texture`. -/
def World.set_texture_settings (w : World) (id : Nat) (tex : Option Nat) :
    World :=
  { w with entities := al_modify id (EntityData.set_texture tex) w.entities }

/-- `UndoRedoInterface::set_thing`. -/
def World.set_thing (w : World) (id : Nat) (t : Nat) : World :=
  { w with entities := al_modify id (EntityData.set_thing t) w.entities }

/-- `UndoRedoInterface::insert_subtractee`. -/
def World.insert_subtractee (w : World) (id : Nat) : World :=
  { w with subtractees := al_insert id () w.subtractees }

/-- `UndoRedoInterface::remove_subtractee`. -/
def World.remove_subtractee (w : World) (id : Nat) : World :=
  { w with subtractees := al_erase id w.subtractees }

/-- `UndoRedoInterface::insert_free_draw_point`. -/
def World.insert_free_draw_point (w : World) (p : Vec2) (idx : Nat) : World :=
  { w with free_draw_points := insert_at idx p w.free_draw_points }

/-- `UndoRedoInterface::delete_free_draw_point`. -/
def World.delete_free_draw_point (w : World) (idx : Nat) : World :=
  { w with free_draw_points := erase_at idx w.free_draw_points }

/-- Modelled from the spec (section 3, "Edit Record"): a tagged value capturing
one logical change, storing enough information to both apply and invert itself
through the undo/redo interface. -/
inductive EditRecord where
  | entity_selection (id : Nat)
  | entity_deselection (id : Nat)
  | spawn (id : Nat) (data : EntityData)
  | despawn (id : Nat) (data : EntityData)
  | polygon_edit (id : Nat) (old new : VertexList)
  | vertexes_selection (id : Nat) (idxs : List Nat) (select : Bool)
  | path_nodes_selection (id : Nat) (idxs : List Nat) (select : Bool)
  | path_creation (id : Nat) (path : VertexList)
  | path_deletion (id : Nat) (path : VertexList)
  | texture_edit (id : Nat) (old new : Option Nat)
  | thing_change (id : Nat) (old new : Nat)
  | subtractee_selection (id : Nat)
  | subtractee_deselection (id : Nat)
  | free_draw_point_insertion (p : Vec2) (idx : Nat)
  | free_draw_point_deletion (p : Vec2) (idx : Nat)
deriving DecidableEq, Repr

/-- The "do" interface call of the record. -/
def EditRecord.apply : EditRecord → World → World
  | .entity_selection id, w => w.select_entity id
  | .entity_deselection id, w => w.deselect_entity id
  | .spawn id data, w => w.spawn id data
  | .despawn id _, w => w.despawn id
  | .polygon_edit id _ new, w => w.set_polygon id new
  | .vertexes_selection id idxs select, w => w.set_vertex_flags id idxs select
  | .path_nodes_selection id idxs select, w =>
    w.set_path_node_flags id idxs select
  | .path_creation id path, w => w.set_path id path
  | .path_deletion id _, w => w.remove_path id
  | .texture_edit id _ new, w => w.set_texture_settings id new
  | .thing_change id _ new, w => w.set_thing id new
  | .subtractee_selection id, w => w.insert_subtractee id
  | .subtractee_deselection id, w => w.remove_subtractee id
  | .free_draw_point_insertion p idx, w => w.insert_free_draw_point p idx
  | .free_draw_point_deletion _ idx, w => w.delete_free_draw_point idx

/-- The paired "undo" interface call of the record. -/
def EditRecord.unapply : EditRecord → World → World
  | .entity_selection id, w => w.deselect_entity id
  | .entity_deselection id, w => w.select_entity id
  | .spawn id _, w => w.despawn id
  | .despawn id data, w => w.spawn id data
  | .polygon_edit id old _, w => w.set_polygon id old
  | .vertexes_selection id idxs select, w => w.set_vertex_flags id idxs !select
  | .path_nodes_selection id idxs select, w =>
    w.set_path_node_flags id idxs !select
  | .path_creation id _, w => w.remove_path id
  | .path_deletion id path, w => w.set_path id path
  | .texture_edit id old _, w => w.set_texture_settings id old
  | .thing_change id old _, w => w.set_thing id old
  | .subtractee_selection id, w => w.remove_subtractee id
  | .subtractee_deselection id, w => w.insert_subtractee id
  | .free_draw_point_insertion _ idx, w => w.delete_free_draw_point idx
  | .free_draw_point_deletion p idx, w => w.insert_free_draw_point p idx

/-- The record's documented precondition in the given world (violating it is a
fatal internal-consistency assertion in the source, spec section 4.2). -/
def EditRecord.valid : EditRecord → World → Bool
  | .entity_selection id, w =>
    match al_lookup id w.entities with
    | some e => !e.selected
    | none => false
  | .entity_deselection id, w =>
    match al_lookup id w.entities with
    | some e => e.selected
    | none => false
  | .spawn id _, w => (al_lookup id w.entities).isNone
  | .despawn id data, w => decide (al_lookup id w.entities = some data)
  | .polygon_edit id old _, w =>
    match al_lookup id w.entities with
    | some (.brush p _ _ _) => decide (p = old)
    | _ => false
  | .vertexes_selection id idxs select, w =>
    match al_lookup id w.entities with
    | some (.brush poly _ _ _) =>
      idxs.all fun j => decide (flag_at poly j = some !select)
    | _ => false
  | .path_nodes_selection id idxs select, w =>
    match al_lookup id w.entities with
    | some (.brush _ _ (some nodes) _) =>
      idxs.all fun j => decide (flag_at nodes j = some !select)
    | _ => false
  | .path_creation id _, w =>
    match al_lookup id w.entities with
    | some (.brush _ _ none _) => true
    | _ => false
  | .path_deletion id path, w =>
    match al_lookup id w.entities with
    | some (.brush _ _ (some p) _) => decide (p = path)
    | _ => false
  | .texture_edit id old _, w =>
    match al_lookup id w.entities with
    | some (.brush _ _ _ t) => decide (t = old)
    | _ => false
  | .thing_change id old _, w =>
    match al_lookup id w.entities with
    | some (.thing t _ _) => decide (t = old)
    | _ => false
  | .subtractee_selection id, w => (al_lookup id w.subtractees).isNone
  | .subtractee_deselection id, w => (al_lookup id w.subtractees).isSome
  | .free_draw_point_insertion _ idx, w =>
    decide (idx ≤ w.free_draw_points.length)
  | .free_draw_point_deletion p idx, w =>
    decide (point_at w.free_draw_points idx = some p)

theorem EntityData.set_selected_set_selected (b b' : Bool) (e : EntityData) :
    EntityData.set_selected b (EntityData.set_selected b' e) =
      EntityData.set_selected b e := by
  cases e <;> rfl

theorem EntityData.set_selected_self {b : Bool} (e : EntityData)
    (h : e.selected = b) : EntityData.set_selected b e = e := by
  cases e <;> simp_all [EntityData.selected, EntityData.set_selected]

theorem EditRecord.unapply_apply (r : EditRecord) (w : World)
    (hwf : w.wf = true) (hv : r.valid w = true) :
    r.unapply (r.apply w) = w := by
  obtain ⟨hse, hss⟩ : al_sorted w.entities = true ∧ al_sorted w.subtractees = true := by
    simpa [World.wf] using hwf
  cases r with
  | entity_selection id =>
    rw [EditRecord.valid] at hv
    cases hl : al_lookup id w.entities with
    | none => rw [hl] at hv; exact absurd hv (by simp)
    | some e =>
      rw [hl] at hv
      have hfe :
          EntityData.set_selected false (EntityData.set_selected true e) = e := by
        rw [EntityData.set_selected_set_selected]
        exact EntityData.set_selected_self e (by simpa using hv)
      have hent :
          al_modify id (EntityData.set_selected false)
              (al_modify id (EntityData.set_selected true) w.entities) =
            w.entities := by
        rw [al_modify_modify]
        exact al_modify_id hl hfe
      simp [EditRecord.apply, EditRecord.unapply, World.select_entity,
        World.deselect_entity, hent]
  | entity_deselection id =>
    rw [EditRecord.valid] at hv
    cases hl : al_lookup id w.entities with
    | none => rw [hl] at hv; exact absurd hv (by simp)
    | some e =>
      rw [hl] at hv
      have hfe :
          EntityData.set_selected true (EntityData.set_selected false e) = e := by
        rw [EntityData.set_selected_set_selected]
        exact EntityData.set_selected_self e hv
      have hent :
          al_modify id (EntityData.set_selected true)
              (al_modify id (EntityData.set_selected false) w.entities) =
            w.entities := by
        rw [al_modify_modify]
        exact al_modify_id hl hfe
      simp [EditRecord.apply, EditRecord.unapply, World.select_entity,
        World.deselect_entity, hent]
  | spawn id data =>
    rw [EditRecord.valid] at hv
    have hl : al_lookup id w.entities = none := by
      simpa [Option.isNone_iff_eq_none] using hv
    have hent : al_erase id (al_insert id data w.entities) = w.entities :=
      al_erase_insert data hl
    simp [EditRecord.apply, EditRecord.unapply, World.spawn, World.despawn, hent]
  | despawn id data =>
    rw [EditRecord.valid] at hv
    have hl : al_lookup id w.entities = some data := by simpa using hv
    have hent : al_insert id data (al_erase id w.entities) = w.entities :=
      al_insert_erase hse hl
    simp [EditRecord.apply, EditRecord.unapply, World.spawn, World.despawn, hent]
  | polygon_edit id old new =>
    rw [EditRecord.valid] at hv
    cases hl : al_lookup id w.entities with
    | none => rw [hl] at hv; exact absurd hv (by simp)
    | some e =>
      rw [hl] at hv
      cases e with
      | thing t pos s => exact absurd hv (by simp)
      | brush p s path tex =>
        obtain rfl : p = old := by simpa using hv
        have hfe :
            EntityData.set_polygon p (EntityData.set_polygon new
              (EntityData.brush p s path tex)) = EntityData.brush p s path tex := rfl
        have hent :
            al_modify id (EntityData.set_polygon p)
                (al_modify id (EntityData.set_polygon new) w.entities) =
              w.entities := by
          rw [al_modify_modify]
          exact al_modify_id hl hfe
        simp [EditRecord.apply, EditRecord.unapply, World.set_polygon, hent]
  | vertexes_selection id idxs select =>
    rw [EditRecord.valid] at hv
    cases hl : al_lookup id w.entities with
    | none => rw [hl] at hv; exact absurd hv (by simp)
    | some e =>
      rw [hl] at hv
      cases e with
      | thing t pos s => exact absurd hv (by simp)
      | brush poly s path tex =>
        have hall : ∀ j, idxs.contains j = true →
            flag_at poly j = some !select := by
          intro j hj
          have hmem : j ∈ idxs := by simpa using hj
          have := List.all_eq_true.mp hv j hmem
          simpa using this
        have hpoly :
            set_flags idxs (!select) (set_flags idxs select poly) = poly := by
          rw [set_flags, set_flags]
          refine set_flags_from_roundtrip idxs select (!select) poly 0 ?_
          intro j hj _
          simpa using hall j hj
        have hent :
            al_modify id
                (fun e =>
                  match e with
                  | .brush poly s path tex =>
                    EntityData.brush (set_flags idxs (!select) poly) s path tex
                  | e => e)
                (al_modify id
                  (fun e =>
                    match e with
                    | .brush poly s path tex =>
                      EntityData.brush (set_flags idxs select poly) s path tex
                    | e => e)
                  w.entities) =
              w.entities := by
          rw [al_modify_modify]
          refine al_modify_id hl ?_
          show EntityData.brush
              (set_flags idxs (!select) (set_flags idxs select poly)) s path tex =
            EntityData.brush poly s path tex
          rw [hpoly]
        simp [EditRecord.apply, EditRecord.unapply, World.set_vertex_flags, hent]
  | path_nodes_selection id idxs select =>
    rw [EditRecord.valid] at hv
    cases hl : al_lookup id w.entities with
    | none => rw [hl] at hv; exact absurd hv (by simp)
    | some e =>
      rw [hl] at hv
      cases e with
      | thing t pos s => exact absurd hv (by simp)
      | brush poly s path tex =>
        cases path with
        | none => exact absurd hv (by simp)
        | some nodes =>
          have hall : ∀ j, idxs.contains j = true →
              flag_at nodes j = some !select := by
            intro j hj
            have hmem : j ∈ idxs := by simpa using hj
            have := List.all_eq_true.mp hv j hmem
            simpa using this
          have hnodes :
              set_flags idxs (!select) (set_flags idxs select nodes) = nodes := by
            rw [set_flags, set_flags]
            refine set_flags_from_roundtrip idxs select (!select) nodes 0 ?_
            intro j hj _
            simpa using hall j hj
          have hent :
              al_modify id
                  (fun e =>
                    match e with
                    | .brush poly s (some nodes) tex =>
                      EntityData.brush poly s
                        (some (set_flags idxs (!select) nodes)) tex
                    | e => e)
                  (al_modify id
                    (fun e =>
                      match e with
                      | .brush poly s (some nodes) tex =>
                        EntityData.brush poly s
                          (some (set_flags idxs select nodes)) tex
                      | e => e)
                    w.entities) =
                w.entities := by
            rw [al_modify_modify]
            refine al_modify_id hl ?_
            show EntityData.brush poly s
                (some (set_flags idxs (!select) (set_flags idxs select nodes)))
                tex =
              EntityData.brush poly s (some nodes) tex
            rw [hnodes]
          simp [EditRecord.apply, EditRecord.unapply,
            World.set_path_node_flags, hent]
  | path_creation id path =>
    rw [EditRecord.valid] at hv
    cases hl : al_lookup id w.entities with
    | none => rw [hl] at hv; exact absurd hv (by simp)
    | some e =>
      rw [hl] at hv
      cases e with
      | thing t pos s => exact absurd hv (by simp)
      | brush poly s epath tex =>
        cases epath with
        | some nodes => exact absurd hv (by simp)
        | none =>
          have hent :
              al_modify id (EntityData.set_path none)
                  (al_modify id (EntityData.set_path (some path)) w.entities) =
                w.entities := by
            rw [al_modify_modify]
            exact al_modify_id hl rfl
          simp [EditRecord.apply, EditRecord.unapply, World.set_path,
            World.remove_path, hent]
  | path_deletion id path =>
    rw [EditRecord.valid] at hv
    cases hl : al_lookup id w.entities with
    | none => rw [hl] at hv; exact absurd hv (by simp)
    | some e =>
      rw [hl] at hv
      cases e with
      | thing t pos s => exact absurd hv (by simp)
      | brush poly s epath tex =>
        cases epath with
        | none => exact absurd hv (by simp)
        | some nodes =>
          obtain rfl : nodes = path := by simpa using hv
          have hent :
              al_modify id (EntityData.set_path (some nodes))
                  (al_modify id (EntityData.set_path none) w.entities) =
                w.entities := by
            rw [al_modify_modify]
            exact al_modify_id hl rfl
          simp [EditRecord.apply, EditRecord.unapply, World.set_path,
            World.remove_path, hent]
  | texture_edit id old new =>
    rw [EditRecord.valid] at hv
    cases hl : al_lookup id w.entities with
    | none => rw [hl] at hv; exact absurd hv (by simp)
    | some e =>
      rw [hl] at hv
      cases e with
      | thing t pos s => exact absurd hv (by simp)
      | brush poly s path tex =>
        obtain rfl : tex = old := by simpa using hv
        have hent :
            al_modify id (EntityData.set_texture tex)
                (al_modify id (EntityData.set_texture new) w.entities) =
              w.entities := by
          rw [al_modify_modify]
          exact al_modify_id hl rfl
        simp [EditRecord.apply, EditRecord.unapply,
          World.set_texture_settings, hent]
  | thing_change id old new =>
    rw [EditRecord.valid] at hv
    cases hl : al_lookup id w.entities with
    | none => rw [hl] at hv; exact absurd hv (by simp)
    | some e =>
      rw [hl] at hv
      cases e with
      | brush poly s path tex => exact absurd hv (by simp)
      | thing t pos s =>
        obtain rfl : t = old := by simpa using hv
        have hent :
            al_modify id (EntityData.set_thing t)
                (al_modify id (EntityData.set_thing new) w.entities) =
              w.entities := by
          rw [al_modify_modify]
          exact al_modify_id hl rfl
        simp [EditRecord.apply, EditRecord.unapply, World.set_thing, hent]
  | subtractee_selection id =>
    rw [EditRecord.valid] at hv
    have hl : al_lookup id w.subtractees = none := by
      simpa [Option.isNone_iff_eq_none] using hv
    have hsub : al_erase id (al_insert id () w.subtractees) = w.subtractees :=
      al_erase_insert () hl
    simp [EditRecord.apply, EditRecord.unapply, World.insert_subtractee,
      World.remove_subtractee, hsub]
  | subtractee_deselection id =>
    rw [EditRecord.valid] at hv
    obtain ⟨u, hu⟩ := Option.isSome_iff_exists.mp hv
    obtain rfl : u = () := rfl
    have hsub : al_insert id () (al_erase id w.subtractees) = w.subtractees :=
      al_insert_erase hss hu
    simp [EditRecord.apply, EditRecord.unapply, World.insert_subtractee,
      World.remove_subtractee, hsub]
  | free_draw_point_insertion p idx =>
    rw [EditRecord.valid] at hv
    have hlen : idx ≤ w.free_draw_points.length := by simpa using hv
    have hpts : erase_at idx (insert_at idx p w.free_draw_points) =
        w.free_draw_points := erase_at_insert_at p idx w.free_draw_points hlen
    simp [EditRecord.apply, EditRecord.unapply, World.insert_free_draw_point,
      World.delete_free_draw_point, hpts]
  | free_draw_point_deletion p idx =>
    rw [EditRecord.valid] at hv
    have hpt : point_at w.free_draw_points idx = some p := by simpa using hv
    have hpts : insert_at idx p (erase_at idx w.free_draw_points) =
        w.free_draw_points := insert_at_erase_at idx w.free_draw_points p hpt
    simp [EditRecord.apply, EditRecord.unapply, World.insert_free_draw_point,
      World.delete_free_draw_point, hpts]

theorem EditRecord.apply_wf (r : EditRecord) (w : World) (hwf : w.wf = true) :
    (r.apply w).wf = true := by
  obtain ⟨hse, hss⟩ : al_sorted w.entities = true ∧ al_sorted w.subtractees = true := by
    simpa [World.wf] using hwf
  cases r <;>
    simp [EditRecord.apply, World.wf, World.select_entity, World.deselect_entity,
      World.spawn, World.despawn, World.set_polygon, World.set_vertex_flags,
      World.set_path_node_flags, World.set_path, World.remove_path,
      World.set_texture_settings, World.set_thing, World.insert_subtractee,
      World.remove_subtractee, World.insert_free_draw_point,
      World.delete_free_draw_point, al_sorted_insert, al_sorted_erase,
      al_sorted_modify, hse, hss]

/-- Applies a frame's records in order (`EditsHistory::redo` direction). -/
def apply_frame (fr : List EditRecord) (w : World) : World :=
  fr.foldl (fun acc r => r.apply acc) w

/-- Applies the inverses of a frame's records in reverse order
(`EditsHistory::undo` direction). -/
def unapply_frame (fr : List EditRecord) (w : World) : World :=
  fr.foldr (fun r acc => r.unapply acc) w

/-- Sequential validity of a frame's records from the given world. -/
def frame_valid : List EditRecord → World → Bool
  | [], _ => true
  | r :: rest, w => r.valid w && frame_valid rest (r.apply w)

theorem apply_frame_wf :
    ∀ (fr : List EditRecord) (w : World), w.wf = true →
      (apply_frame fr w).wf = true := by
  intro fr
  induction fr with
  | nil => intro w h; exact h
  | cons r rest ih =>
    intro w h
    rw [apply_frame, List.foldl_cons]
    exact ih (r.apply w) (r.apply_wf w h)

theorem frame_roundtrip :
    ∀ (fr : List EditRecord) (w : World), w.wf = true →
      frame_valid fr w = true → unapply_frame fr (apply_frame fr w) = w := by
  intro fr
  induction fr with
  | nil => intro w _ _; rfl
  | cons r rest ih =>
    intro w hwf hv
    rw [frame_valid, Bool.and_eq_true] at hv
    rw [apply_frame, List.foldl_cons, unapply_frame, List.foldr_cons]
    have h1 : unapply_frame rest (apply_frame rest (r.apply w)) = r.apply w :=
      ih (r.apply w) (r.apply_wf w hwf) hv.2
    rw [show List.foldl (fun acc r => EditRecord.apply r acc) (r.apply w) rest =
        apply_frame rest (r.apply w) from rfl,
      show List.foldr (fun r acc => EditRecord.unapply r acc)
          (apply_frame rest (r.apply w)) rest =
        unapply_frame rest (apply_frame rest (r.apply w)) from rfl,
      h1]
    exact r.unapply_apply w hwf hv.1

/-- Modelled from the spec (section 4.2): the edit history's two stacks of
tagged frames. -/
structure EditsHistory where
  undo_stack : List (List EditRecord × String)
  redo_stack : List (List EditRecord × String)
deriving DecidableEq, Repr

/-- Modelled from the spec: `close_frame` at end of frame — moves the open
frame onto the undo stack and clears the redo stack only if the frame was
non-empty. -/
def EditsHistory.push_frame (h : EditsHistory) (fr : List EditRecord)
    (tag : String) : EditsHistory :=
  if fr.isEmpty then h
  else { undo_stack := (fr, tag) :: h.undo_stack, redo_stack := [] }

/-- Modelled from the spec: `undo` pops the most recent frame from the undo
stack, applies each record's inverse in reverse order, and pushes the
still-forward frame onto the redo stack; no-op when the undo stack is empty. -/
def EditsHistory.undo (h : EditsHistory) (w : World) : EditsHistory × World :=
  match h.undo_stack with
  | [] => (h, w)
  | fr :: rest =>
    ({ undo_stack := rest, redo_stack := fr :: h.redo_stack },
      unapply_frame fr.1 w)

/-- Modelled from the spec: `redo`, symmetric to `undo`. -/
def EditsHistory.redo (h : EditsHistory) (w : World) : EditsHistory × World :=
  match h.redo_stack with
  | [] => (h, w)
  | fr :: rest =>
    ({ undo_stack := fr :: h.undo_stack, redo_stack := rest },
      apply_frame fr.1 w)

/-- Modelled from the spec: `override_edit_tag` relabels the most recent frame
without altering its records. -/
def EditsHistory.override_edit_tag (h : EditsHistory) (tag : String) :
    EditsHistory :=
  match h.undo_stack with
  | [] => h
  | fr :: rest => { h with undo_stack := (fr.1, tag) :: rest }

/-- The tool-dispatch core (`Core` in `core/mod.rs`), reduced to the state the
undo/redo entry points read (`prev_editing_target` is not involved). -/
structure Core where
  active_tool : ActiveTool
deriving DecidableEq, Repr

/-- `Core::undo_redo_available`. -/
def Core.undo_redo_available (c : Core) : Bool :=
  !c.active_tool.ongoing_multi_frame_change

/-- `Core::undo`: asserts that undo/redo is available before applying history
(the `assert!` is embedded as `Except.error`). -/
def Core.undo (c : Core) (h : EditsHistory) (w : World) :
    Except String (EditsHistory × World) :=
  if !c.undo_redo_available then .error "Undo redo is not available."
  else .ok (h.undo w)

/-- `Core::redo`: asserts that undo/redo is available before applying history. -/
def Core.redo (c : Core) (h : EditsHistory) (w : World) :
    Except String (EditsHistory × World) :=
  if !c.undo_redo_available then .error "Undo redo is not available."
  else .ok (h.redo w)

/-! The brush-level tool commands: subtraction, hollow and intersection. The
`ConvexPolygon` geometry (`subtract`, `intersection`, `intersect`, `hollow`)
and the manager mutation primitives are not under `src/`: the geometry
operations are taken as opaque function parameters matching the spec's
contracts, and the manager primitives are modelled from the spec (section 6)
on the `World` store, while the command drivers mirror the in-`src/` code. -/

/-- `SubtractResult` (spec, section 4.1): the outcome of subtracting one
convex polygon from another. -/
inductive SubtractResult where
  | None
  | Despawn
  | Some (main : VertexList) (others : List VertexList)
deriving DecidableEq, Repr

/-- `EntitiesManager::brush`: the polygon of the brush with the given id
(`none` embeds the panic on a missing or non-brush id). -/
def World.brush_polygon (w : World) (id : Nat) : Option VertexList :=
  match al_lookup id w.entities with
  | some (.brush p _ _ _) => some p
  | _ => none

/-- Modelled from the spec: `spawn_brushes` — spawns one new brush per
polygon, each under a fresh sequential id. -/
def World.spawn_polys (w : World) (polys : List VertexList) : World :=
  polys.foldl
    (fun acc p =>
      { acc with
        entities := al_insert acc.next_id (.brush p false none none) acc.entities,
        next_id := acc.next_id + 1 })
    w

/-- Modelled from the spec: `replace_brush_with_partition` — applies `f` to
the brush with the given id and spawns the partition polygons as new
brushes. -/
def World.replace_brush_with_partition (w : World) (others : List VertexList)
    (id : Nat) (f : EntityData → EntityData) : World :=
  World.spawn_polys { w with entities := al_modify id f w.entities } others

/-- One iteration of the loop in `SubtractTool::subtract`: subtracts the
selected brush (`sel_id`) from the subtractee `id` and applies the result. -/
def subtract_step (sub : VertexList → VertexList → SubtractResult)
    (sel_id : Nat) (acc : World) (id : Nat) : World :=
  match acc.brush_polygon id, acc.brush_polygon sel_id with
  | some p, some q =>
    match sub p q with
    | .None => acc
    | .Despawn => acc.despawn id
    | .Some main others =>
      (acc.replace_brush_with_partition others id
          (EntityData.set_polygon main)).select_entity id
  | _, _ => acc

/-- The loop of `SubtractTool::subtract` over the subtractees. -/
def subtract_fold (sub : VertexList → VertexList → SubtractResult)
    (sel_id : Nat) (ids : List Nat) (w : World) : World :=
  ids.foldl (subtract_step sub sel_id) w

/-- `SubtractTool::subtract`: subtracts the selected brush from every
subtractee and overrides the frame's edit tag; the override label is returned
alongside the resulting world. -/
def SubtractTool.subtract (sub : VertexList → VertexList → SubtractResult)
    (w : World) (sel_id : Nat) (subtractees : List Nat) :
    World × Option String :=
  (subtract_fold sub sel_id subtractees w, some "Brushes Subtraction")

/-- The `find_map`/`test_operation_validity` pass of `ActiveTool::hollow_tool`:
collects the hollow result of every selected brush in store order, failing
(`none`) as soon as one selected brush cannot be hollowed. -/
def collect_hollow
    (hollow : VertexList → Option (VertexList × List VertexList)) :
    List (Nat × EntityData) → Option (List (Nat × VertexList × List VertexList))
  | [] => some []
  | (id, .brush p true path tex) :: rest =>
    let _ := path
    let _ := tex
    match hollow p with
    | none => none
    | some (main, walls) =>
      (collect_hollow hollow rest).map (fun l => (id, main, walls) :: l)
  | _ :: rest => collect_hollow hollow rest

/-- `ActiveTool::hollow_tool`: replaces each selected brush with its inset
main polygon plus its wall brushes; aborts with no modification if any
selected brush cannot be hollowed (or none is selected), otherwise overrides
the frame's edit tag (returned alongside the world). -/
def hollow_tool (hollow : VertexList → Option (VertexList × List VertexList))
    (w : World) : World × Option String :=
  match collect_hollow hollow w.entities with
  | none => (w, none)
  | some [] => (w, none)
  | some results =>
    (results.foldl
        (fun acc r =>
          acc.replace_brush_with_partition r.2.2 r.1
            (EntityData.set_polygon r.2.1))
        w,
      some "Brushes hollow")

/-- `EntitiesManager::selected_brushes_ids`, in store order. -/
def World.selected_brushes_ids (w : World) : List Nat :=
  w.entities.filterMap fun e =>
    match e.2 with
    | .brush _ true _ _ => some e.1
    | _ => none

/-- Modelled from the spec: `despawn_selected_brushes` — removes every
selected brush from the store. -/
def World.despawn_selected_brushes (w : World) : World :=
  { w with
    entities :=
      w.entities.filter fun e =>
        match e.2 with
        | .brush _ true _ _ => false
        | _ => true }

/-- Despawns the brushes with the listed ids (`DrawTool::despawn_drawn_brushes`
reached through `draw_tool_despawn` when the draw tool is active; `drawn` is
its drawn-brush id set, empty for any other tool). -/
def despawn_ids (ids : List Nat) (w : World) : World :=
  ids.foldl (fun acc id => acc.despawn id) w

/-- The accumulation loop of `ActiveTool::intersection_tool`: intersects the
running polygon with each listed brush via the in-place `intersect`, `none`
as soon as the running intersection becomes empty. -/
def accumulate (inter : VertexList → VertexList → Option VertexList)
    (w : World) : List Nat → VertexList → Option VertexList
  | [], acc => some acc
  | id :: rest, acc =>
    match w.brush_polygon id with
    | some p =>
      match inter p acc with
      | some r => accumulate inter w rest r
      | none => none
    | none => none

/-- `ActiveTool::intersection_tool`: intersects all selected brushes. If the
first two are disjoint every selected brush is despawned immediately;
otherwise the drawn brushes are despawned (`draw_tool_despawn`), every
selected brush is despawned, and the intersection brush is spawned only when
the running intersection stayed non-empty. -/
def intersection_tool (inter : VertexList → VertexList → Option VertexList)
    (w : World) (drawn : List Nat) : World :=
  match w.selected_brushes_ids with
  | id1 :: id2 :: rest =>
    match w.brush_polygon id1, w.brush_polygon id2 with
    | some p1, some p2 =>
      match inter p1 p2 with
      | none => w.despawn_selected_brushes
      | some cp =>
        let res := accumulate inter w rest cp
        let w2 := (despawn_ids drawn w).despawn_selected_brushes
        match res with
        | none => w2
        | some r => w2.spawn_polys [r]
    | _, _ => w
  | _ => w

theorem al_mem_lookup {α : Type} {k : Nat} {v : α} {l : List (Nat × α)}
    (hs : al_sorted l = true) (hm : (k, v) ∈ l) : al_lookup k l = some v := by
  induction l with
  | nil => exact absurd hm (by simp)
  | cons hd tl ih =>
    obtain ⟨j, w⟩ := hd
    obtain ⟨hs', hlt⟩ := al_sorted_cons hs
    rcases List.mem_cons.mp hm with heq | hmem
    · obtain ⟨rfl, rfl⟩ : k = j ∧ v = w := by simpa using heq
      rw [al_lookup, if_pos rfl]
    · have hk : al_lookup k tl = some v := ih hs' hmem
      have : j < k := hlt k v hk
      rw [al_lookup, if_neg (by omega)]
      exact hk

theorem al_lookup_mem {α : Type} {k : Nat} {v : α} {l : List (Nat × α)}
    (h : al_lookup k l = some v) : (k, v) ∈ l := by
  induction l with
  | nil => simp [al_lookup] at h
  | cons hd tl ih =>
    obtain ⟨j, w⟩ := hd
    rw [al_lookup] at h
    by_cases hjk : j = k
    · rw [if_pos hjk] at h
      obtain rfl : w = v := by simpa using h
      subst hjk
      exact List.mem_cons_self _ _
    · rw [if_neg hjk] at h
      exact List.mem_cons_of_mem _ (ih h)

theorem al_keys_lt_lookup {α : Type} {n k : Nat} {v : α} {l : List (Nat × α)}
    (hb : al_keys_lt n l = true) (h : al_lookup k l = some v) : k < n := by
  have hmem := al_lookup_mem h
  have := List.all_eq_true.mp hb (k, v) hmem
  simpa using this

theorem al_keys_lt_mono {α : Type} {n m : Nat} {l : List (Nat × α)}
    (hb : al_keys_lt n l = true) (hnm : n ≤ m) : al_keys_lt m l = true := by
  refine List.all_eq_true.mpr ?_
  intro x hx
  have := List.all_eq_true.mp hb x hx
  simp only [decide_eq_true_eq] at this ⊢
  omega

theorem al_keys_lt_insert {α : Type} {n k : Nat} (v : α) {l : List (Nat × α)}
    (hb : al_keys_lt n l = true) (hk : k < n) :
    al_keys_lt n (al_insert k v l) = true := by
  induction l with
  | nil => simpa [al_insert, al_keys_lt]
  | cons hd tl ih =>
    obtain ⟨j, w⟩ := hd
    rw [al_keys_lt, List.all_cons, Bool.and_eq_true] at hb
    have hj : (decide (j < n)) = true := by simpa using hb.1
    by_cases h1 : k < j
    · rw [al_insert, if_pos h1]
      simp only [al_keys_lt, List.all_cons, Bool.and_eq_true]
      refine ⟨by simpa using hk, ?_⟩
      simp only [al_keys_lt, List.all_cons, Bool.and_eq_true] at *
      exact ⟨hb.1, hb.2⟩
    · by_cases h2 : k = j
      · subst h2
        rw [al_insert, if_neg h1, if_pos rfl]
        simp only [al_keys_lt, List.all_cons, Bool.and_eq_true]
        exact ⟨by simpa using hk, hb.2⟩
      · rw [al_insert, if_neg h1, if_neg h2]
        simp only [al_keys_lt, List.all_cons, Bool.and_eq_true]
        exact ⟨hb.1, ih hb.2⟩

theorem al_keys_lt_erase {α : Type} {n k : Nat} {l : List (Nat × α)}
    (hb : al_keys_lt n l = true) : al_keys_lt n (al_erase k l) = true := by
  induction l with
  | nil => exact hb
  | cons hd tl ih =>
    obtain ⟨j, w⟩ := hd
    rw [al_keys_lt, List.all_cons, Bool.and_eq_true] at hb
    by_cases hjk : j = k
    · rw [al_erase, if_pos hjk]
      exact hb.2
    · rw [al_erase, if_neg hjk]
      simp only [al_keys_lt, List.all_cons, Bool.and_eq_true]
      exact ⟨hb.1, ih hb.2⟩

theorem al_keys_lt_modify {α : Type} {n k : Nat} (f : α → α)
    {l : List (Nat × α)} (hb : al_keys_lt n l = true) :
    al_keys_lt n (al_modify k f l) = true := by
  induction l with
  | nil => exact hb
  | cons hd tl ih =>
    obtain ⟨j, w⟩ := hd
    rw [al_keys_lt, List.all_cons, Bool.and_eq_true] at hb
    by_cases hjk : j = k
    · rw [al_modify, if_pos hjk]
      simp only [al_keys_lt, List.all_cons, Bool.and_eq_true]
      exact ⟨hb.1, hb.2⟩
    · rw [al_modify, if_neg hjk]
      simp only [al_keys_lt, List.all_cons, Bool.and_eq_true]
      exact ⟨hb.1, ih hb.2⟩

theorem al_keys_lt_filter {α : Type} {n : Nat} (P : Nat × α → Bool)
    {l : List (Nat × α)} (hb : al_keys_lt n l = true) :
    al_keys_lt n (l.filter P) = true := by
  refine List.all_eq_true.mpr ?_
  intro x hx
  exact List.all_eq_true.mp hb x (List.mem_of_mem_filter hx)

theorem al_lookup_filter_none {α : Type} {k : Nat} (P : Nat × α → Bool)
    {l : List (Nat × α)} (h : al_lookup k l = none) :
    al_lookup k (l.filter P) = none := by
  induction l with
  | nil => rfl
  | cons hd tl ih =>
    obtain ⟨j, w⟩ := hd
    rw [al_lookup] at h
    by_cases hjk : j = k
    · rw [if_pos hjk] at h
      exact absurd h (by simp)
    · rw [if_neg hjk] at h
      by_cases hp : P (j, w) = true
      · rw [List.filter_cons_of_pos hp, al_lookup, if_neg hjk]
        exact ih h
      · rw [List.filter_cons_of_neg (by simpa using hp)]
        exact ih h

theorem al_lookup_filter {α : Type} {k : Nat} (P : Nat × α → Bool)
    {l : List (Nat × α)} (hs : al_sorted l = true) :
    al_lookup k (l.filter P) =
      match al_lookup k l with
      | some v => if P (k, v) then some v else none
      | none => none := by
  induction l with
  | nil => rfl
  | cons hd tl ih =>
    obtain ⟨j, w⟩ := hd
    obtain ⟨hs', hlt⟩ := al_sorted_cons hs
    by_cases hjk : j = k
    · subst hjk
      have htl : al_lookup j tl = none := by
        cases hl : al_lookup j tl with
        | none => rfl
        | some u => exact absurd (hlt j u hl) (by omega)
      by_cases hp : P (j, w) = true
      · rw [List.filter_cons_of_pos hp, al_lookup, if_pos rfl, al_lookup,
          if_pos rfl]
        simp [hp]
      · rw [List.filter_cons_of_neg (by simpa using hp), al_lookup, if_pos rfl]
        rw [al_lookup_filter_none P htl]
        simp [hp]
    · by_cases hp : P (j, w) = true
      · rw [List.filter_cons_of_pos hp, al_lookup, if_neg hjk, al_lookup,
          if_neg hjk]
        exact ih hs'
      · rw [List.filter_cons_of_neg (by simpa using hp), al_lookup, if_neg hjk]
        exact ih hs'

theorem al_sorted_filter {α : Type} (P : Nat × α → Bool) {l : List (Nat × α)}
    (hs : al_sorted l = true) : al_sorted (l.filter P) = true := by
  induction l with
  | nil => rfl
  | cons hd tl ih =>
    obtain ⟨j, w⟩ := hd
    obtain ⟨hs', hlt⟩ := al_sorted_cons hs
    by_cases hp : P (j, w) = true
    · rw [List.filter_cons_of_pos hp]
      refine al_sorted_cons_intro (ih hs') ?_
      intro i u hu
      rw [al_lookup_filter P hs'] at hu
      cases hl : al_lookup i tl with
      | none => rw [hl] at hu; exact absurd hu (by simp)
      | some x => exact hlt i x hl
    · rw [List.filter_cons_of_neg (by simpa using hp)]
      exact ih hs'

theorem World.spawn_polys_next_id (polys : List VertexList) :
    ∀ w : World, (w.spawn_polys polys).next_id = w.next_id + polys.length := by
  induction polys with
  | nil => intro w; rfl
  | cons p rest ih =>
    intro w
    rw [World.spawn_polys, List.foldl_cons]
    have := ih { w with
      entities := al_insert w.next_id (.brush p false none none) w.entities,
      next_id := w.next_id + 1 }
    rw [World.spawn_polys] at this
    rw [this]
    simp
    omega

theorem World.spawn_polys_lookup (polys : List VertexList) :
    ∀ (w : World) (k : Nat), k < w.next_id →
      al_lookup k (w.spawn_polys polys).entities = al_lookup k w.entities := by
  induction polys with
  | nil => intro w k _; rfl
  | cons p rest ih =>
    intro w k hk
    rw [World.spawn_polys, List.foldl_cons]
    have h1 := ih { w with
      entities := al_insert w.next_id (.brush p false none none) w.entities,
      next_id := w.next_id + 1 } k (by simp; omega)
    rw [World.spawn_polys] at h1
    rw [h1]
    exact al_lookup_insert_ne _ _ (by omega)

theorem World.spawn_polys_sorted (polys : List VertexList) :
    ∀ w : World, al_sorted w.entities = true →
      al_sorted (w.spawn_polys polys).entities = true := by
  induction polys with
  | nil => intro w h; exact h
  | cons p rest ih =>
    intro w h
    rw [World.spawn_polys, List.foldl_cons]
    have h1 := ih { w with
      entities := al_insert w.next_id (.brush p false none none) w.entities,
      next_id := w.next_id + 1 } (by simpa using al_sorted_insert _ _ h)
    rw [World.spawn_polys] at h1
    exact h1

theorem World.spawn_polys_keys (polys : List VertexList) :
    ∀ w : World, al_keys_lt w.next_id w.entities = true →
      al_keys_lt (w.spawn_polys polys).next_id
        (w.spawn_polys polys).entities = true := by
  induction polys with
  | nil => intro w h; exact h
  | cons p rest ih =>
    intro w h
    rw [World.spawn_polys, List.foldl_cons]
    have h1 := ih { w with
      entities := al_insert w.next_id (.brush p false none none) w.entities,
      next_id := w.next_id + 1 } ?_
    · rw [World.spawn_polys] at h1
      exact h1
    · show al_keys_lt (w.next_id + 1)
        (al_insert w.next_id (.brush p false none none) w.entities) = true
      exact al_keys_lt_insert _ (al_keys_lt_mono h (by omega)) (by omega)

theorem World.spawn_polys_mem (polys : List VertexList) :
    ∀ (w : World), ∀ p ∈ polys, ∃ k, w.next_id ≤ k ∧
      al_lookup k (w.spawn_polys polys).entities =
        some (.brush p false none none) := by
  induction polys with
  | nil => intro w p hp; exact absurd hp (by simp)
  | cons q rest ih =>
    intro w p hp
    rw [World.spawn_polys, List.foldl_cons]
    set w1 : World := { w with
      entities := al_insert w.next_id (.brush q false none none) w.entities,
      next_id := w.next_id + 1 } with hw1
    rcases List.mem_cons.mp hp with rfl | hmem
    · refine ⟨w.next_id, Nat.le_refl _, ?_⟩
      have hpres := World.spawn_polys_lookup rest w1 w.next_id (by simp [hw1])
      rw [World.spawn_polys] at hpres
      rw [hpres]
      show al_lookup w.next_id
          (al_insert w.next_id (.brush p false none none) w.entities) = _
      exact al_lookup_insert_self _ _ _
    · obtain ⟨k, hk, hl⟩ := ih w1 p hmem
      rw [World.spawn_polys] at hl
      exact ⟨k, by simp [hw1] at hk; omega, hl⟩

theorem World.replace_brush_spec (w : World) (others : List VertexList)
    (id : Nat) (f : EntityData → EntityData)
    (hs : al_sorted w.entities = true)
    (hb : al_keys_lt w.next_id w.entities = true)
    (hid : id < w.next_id) :
    al_sorted (w.replace_brush_with_partition others id f).entities = true ∧
    al_keys_lt (w.replace_brush_with_partition others id f).next_id
      (w.replace_brush_with_partition others id f).entities = true ∧
    (w.replace_brush_with_partition others id f).next_id =
      w.next_id + others.length ∧
    al_lookup id (w.replace_brush_with_partition others id f).entities =
      (al_lookup id w.entities).map f ∧
    (∀ k, k ≠ id → k < w.next_id →
      al_lookup k (w.replace_brush_with_partition others id f).entities =
        al_lookup k w.entities) ∧
    (∀ o ∈ others, ∃ k, w.next_id ≤ k ∧
      al_lookup k (w.replace_brush_with_partition others id f).entities =
        some (.brush o false none none)) := by
  set wm : World := { w with entities := al_modify id f w.entities } with hwm
  have hsm : al_sorted wm.entities = true := by
    simpa [hwm] using al_sorted_modify id f hs
  have hbm : al_keys_lt wm.next_id wm.entities = true := by
    simpa [hwm] using al_keys_lt_modify f hb
  have hrepl : w.replace_brush_with_partition others id f = wm.spawn_polys others := rfl
  rw [hrepl]
  refine ⟨World.spawn_polys_sorted others wm hsm, World.spawn_polys_keys others wm hbm,
    ?_, ?_, ?_, ?_⟩
  · rw [World.spawn_polys_next_id]
  · rw [World.spawn_polys_lookup others wm id (by simpa [hwm] using hid)]
    simpa [hwm] using al_lookup_modify_self id f w.entities
  · intro k hk hklt
    rw [World.spawn_polys_lookup others wm k (by simpa [hwm] using hklt)]
    simpa [hwm] using al_lookup_modify_ne f w.entities hk
  · intro o ho
    obtain ⟨k, hk, hl⟩ := World.spawn_polys_mem others wm o ho
    exact ⟨k, by simpa [hwm] using hk, hl⟩

theorem subtract_fold_spec (sub : VertexList → VertexList → SubtractResult)
    (sel_id : Nat) :
    ∀ (ids : List Nat) (w : World),
      al_sorted w.entities = true →
      al_keys_lt w.next_id w.entities = true →
      ids.Nodup →
      sel_id ∉ ids →
      (∀ i ∈ ids, ∃ p s path tex,
        al_lookup i w.entities = some (.brush p s path tex)) →
      (∃ q0, w.brush_polygon sel_id = some q0) →
      (al_sorted (subtract_fold sub sel_id ids w).entities = true ∧
        al_keys_lt (subtract_fold sub sel_id ids w).next_id
          (subtract_fold sub sel_id ids w).entities = true ∧
        w.next_id ≤ (subtract_fold sub sel_id ids w).next_id ∧
        (∀ k, k ∉ ids → k < w.next_id →
          al_lookup k (subtract_fold sub sel_id ids w).entities =
            al_lookup k w.entities) ∧
        (∀ i ∈ ids, ∀ p s path tex,
          al_lookup i w.entities = some (.brush p s path tex) →
          ∀ q, w.brush_polygon sel_id = some q →
          match sub p q with
          | .None =>
            al_lookup i (subtract_fold sub sel_id ids w).entities =
              some (.brush p s path tex)
          | .Despawn =>
            al_lookup i (subtract_fold sub sel_id ids w).entities = none
          | .Some main others =>
            al_lookup i (subtract_fold sub sel_id ids w).entities =
              some (.brush main true path tex) ∧
            ∀ o ∈ others, ∃ k, w.next_id ≤ k ∧
              al_lookup k (subtract_fold sub sel_id ids w).entities =
                some (.brush o false none none))) := by
  intro ids
  induction ids with
  | nil =>
    intro w hs hb _ _ _ _
    refine ⟨hs, hb, Nat.le_refl _, ?_, ?_⟩
    · intro k _ _; rfl
    · intro i hi; exact absurd hi (by simp)
  | cons id tl ih =>
    intro w hs hb hnd hsel hbr hq0
    obtain ⟨q, hq⟩ := hq0
    obtain ⟨p, s, path, tex, hp⟩ := hbr id (List.mem_cons_self _ _)
    have hid_lt : id < w.next_id := al_keys_lt_lookup hb hp
    have hsel_ne : sel_id ≠ id := fun h => hsel (h ▸ List.mem_cons_self _ _)
    have hsel_tl : sel_id ∉ tl := fun h => hsel (List.mem_cons_of_mem _ h)
    have hid_tl : id ∉ tl := (List.nodup_cons.mp hnd).1
    have hnd_tl : tl.Nodup := (List.nodup_cons.mp hnd).2
    have htl_lt : ∀ i ∈ tl, i < w.next_id := by
      intro i hi
      obtain ⟨pp, ss, pa, tt, hh⟩ := hbr i (List.mem_cons_of_mem _ hi)
      exact al_keys_lt_lookup hb hh
    have hbp : w.brush_polygon id = some p := by
      rw [World.brush_polygon, hp]
    have hsel_lt : sel_id < w.next_id := by
      rw [World.brush_polygon] at hq
      cases hls : al_lookup sel_id w.entities with
      | none => rw [hls] at hq; exact absurd hq (by simp)
      | some e => exact al_keys_lt_lookup hb hls
    have hfold : subtract_fold sub sel_id (id :: tl) w =
        subtract_fold sub sel_id tl (subtract_step sub sel_id w id) := rfl
    cases hsub : sub p q with
    | None =>
      have hw1 : subtract_step sub sel_id w id = w := by
        simp only [subtract_step, hbp, hq, hsub]
      rw [hfold, hw1]
      obtain ⟨ihs, ihb, ihn, ihframe, ihchar⟩ :=
        ih w hs hb hnd_tl hsel_tl
          (fun i hi => hbr i (List.mem_cons_of_mem _ hi)) ⟨q, hq⟩
      refine ⟨ihs, ihb, ihn, ?_, ?_⟩
      · intro k hk hklt
        exact ihframe k (fun h => hk (List.mem_cons_of_mem _ h)) hklt
      · intro i hi p' s' pa' tx' hp' q' hq'
        rcases List.mem_cons.mp hi with rfl | hi_tl
        · rw [hp] at hp'
          obtain ⟨rfl, rfl, rfl, rfl⟩ : p = p' ∧ s = s' ∧ path = pa' ∧ tex = tx' := by
            simpa [EntityData.brush.injEq] using hp'
          obtain rfl : q = q' := by
            rw [hq] at hq'
            simpa using hq'
          rw [hsub]
          rw [ihframe i hid_tl hid_lt]
          exact hp
        · exact ihchar i hi_tl p' s' pa' tx' hp' q' hq'
    | Despawn =>
      have hw1 : subtract_step sub sel_id w id = w.despawn id := by
        simp only [subtract_step, hbp, hq, hsub]
      have hs1 : al_sorted (w.despawn id).entities = true := by
        simpa [World.despawn] using al_sorted_erase id hs
      have hb1 : al_keys_lt (w.despawn id).next_id (w.despawn id).entities = true := by
        simpa [World.despawn] using al_keys_lt_erase hb
      have hframe1 : ∀ k, k ≠ id →
          al_lookup k (w.despawn id).entities = al_lookup k w.entities := by
        intro k hk
        simpa [World.despawn] using al_lookup_erase_ne w.entities hk
      have hlook1 : al_lookup id (w.despawn id).entities = none := by
        simpa [World.despawn] using al_lookup_erase_self hs
      obtain ⟨ihs, ihb, ihn, ihframe, ihchar⟩ :=
        ih (w.despawn id) hs1 hb1 hnd_tl hsel_tl
          (by
            intro i hi
            obtain ⟨pp, ss, pa, tt, hh⟩ := hbr i (List.mem_cons_of_mem _ hi)
            refine ⟨pp, ss, pa, tt, ?_⟩
            rw [hframe1 i (fun h => hid_tl (h ▸ hi))]
            exact hh)
          ⟨q, by
            rw [World.brush_polygon] at hq ⊢
            rw [hframe1 sel_id hsel_ne]
            exact hq⟩
      rw [hfold, hw1]
      refine ⟨ihs, ihb, ?_, ?_, ?_⟩
      · exact ihn
      · intro k hk hklt
        have hk_tl : k ∉ tl := fun h => hk (List.mem_cons_of_mem _ h)
        have hk_ne : k ≠ id := fun h => hk (h ▸ List.mem_cons_self _ _)
        rw [ihframe k hk_tl hklt, hframe1 k hk_ne]
      · intro i hi p' s' pa' tx' hp' q' hq'
        rcases List.mem_cons.mp hi with rfl | hi_tl
        · rw [hp] at hp'
          obtain ⟨rfl, rfl, rfl, rfl⟩ : p = p' ∧ s = s' ∧ path = pa' ∧ tex = tx' := by
            simpa [EntityData.brush.injEq] using hp'
          obtain rfl : q = q' := by
            rw [hq] at hq'
            simpa using hq'
          rw [hsub]
          rw [ihframe i hid_tl hid_lt]
          exact hlook1
        · refine ihchar i hi_tl p' s' pa' tx' ?_ q' ?_
          · rw [hframe1 i (fun h => hid_tl (h ▸ hi_tl))]
            exact hp'
          · rw [World.brush_polygon] at hq' ⊢
            rw [hframe1 sel_id hsel_ne]
            exact hq'
    | Some main others =>
      have hw1 : subtract_step sub sel_id w id =
          (w.replace_brush_with_partition others id
            (EntityData.set_polygon main)).select_entity id := by
        simp only [subtract_step, hbp, hq, hsub]
      obtain ⟨hrs, hrb, hrnext, hrlook, hrframe, hrmem⟩ :=
        w.replace_brush_spec others id (EntityData.set_polygon main) hs hb hid_lt
      set wr : World :=
        w.replace_brush_with_partition others id (EntityData.set_polygon main)
        with hwr
      set w1 : World := wr.select_entity id with hw1d
      have hs1 : al_sorted w1.entities = true := by
        simpa [hw1d, World.select_entity] using
          al_sorted_modify id (EntityData.set_selected true) hrs
      have hb1 : al_keys_lt w1.next_id w1.entities = true := by
        simpa [hw1d, World.select_entity] using
          al_keys_lt_modify (EntityData.set_selected true) hrb
      have hnext1 : w1.next_id = w.next_id + others.length := by
        simpa [hw1d, World.select_entity] using hrnext
      have hlook1 : al_lookup id w1.entities =
          some (.brush main true path tex) := by
        show al_lookup id
            (al_modify id (EntityData.set_selected true) wr.entities) = _
        rw [al_lookup_modify_self, hrlook, hp]
        rfl
      have hframe1 : ∀ k, k ≠ id → k < w.next_id →
          al_lookup k w1.entities = al_lookup k w.entities := by
        intro k hk hklt
        show al_lookup k
            (al_modify id (EntityData.set_selected true) wr.entities) = _
        rw [al_lookup_modify_ne _ _ hk]
        exact hrframe k hk hklt
      have hmem1 : ∀ o ∈ others, ∃ k, w.next_id ≤ k ∧ k < w1.next_id ∧
          al_lookup k w1.entities = some (.brush o false none none) := by
        intro o ho
        obtain ⟨k, hk, hl⟩ := hrmem o ho
        have hkne : k ≠ id := by omega
        have hkl : al_lookup k w1.entities = some (.brush o false none none) := by
          show al_lookup k
              (al_modify id (EntityData.set_selected true) wr.entities) = _
          rw [al_lookup_modify_ne _ _ hkne]
          exact hl
        have hkb : k < w1.next_id := al_keys_lt_lookup hb1 hkl
        exact ⟨k, hk, hkb, hkl⟩
      obtain ⟨ihs, ihb, ihn, ihframe, ihchar⟩ :=
        ih w1 hs1 hb1 hnd_tl hsel_tl
          (by
            intro i hi
            obtain ⟨pp, ss, pa, tt, hh⟩ := hbr i (List.mem_cons_of_mem _ hi)
            refine ⟨pp, ss, pa, tt, ?_⟩
            rw [hframe1 i (fun h => hid_tl (h ▸ hi)) (htl_lt i hi)]
            exact hh)
          ⟨q, by
            rw [World.brush_polygon] at hq ⊢
            rw [hframe1 sel_id hsel_ne hsel_lt]
            exact hq⟩
      rw [hfold, hw1]
      refine ⟨ihs, ihb, ?_, ?_, ?_⟩
      · omega
      · intro k hk hklt
        have hk_tl : k ∉ tl := fun h => hk (List.mem_cons_of_mem _ h)
        have hk_ne : k ≠ id := fun h => hk (h ▸ List.mem_cons_self _ _)
        rw [ihframe k hk_tl (by omega), hframe1 k hk_ne hklt]
      · intro i hi p' s' pa' tx' hp' q' hq'
        rcases List.mem_cons.mp hi with rfl | hi_tl
        · rw [hp] at hp'
          obtain ⟨rfl, rfl, rfl, rfl⟩ : p = p' ∧ s = s' ∧ path = pa' ∧ tex = tx' := by
            simpa [EntityData.brush.injEq] using hp'
          obtain rfl : q = q' := by
            rw [hq] at hq'
            simpa using hq'
          rw [hsub]
          constructor
          · rw [ihframe i hid_tl (by omega)]
            exact hlook1
          · intro o ho
            obtain ⟨k, hk1, hk2, hkl⟩ := hmem1 o ho
            have hk_tl : k ∉ tl := fun h => by
              have := htl_lt k h
              omega
            refine ⟨k, hk1, ?_⟩
            rw [ihframe k hk_tl hk2]
            exact hkl
        · have hlp : al_lookup i w1.entities = some (.brush p' s' pa' tx') := by
            rw [hframe1 i (fun h => hid_tl (h ▸ hi_tl)) (htl_lt i hi_tl)]
            exact hp'
          have hlq : w1.brush_polygon sel_id = some q' := by
            rw [World.brush_polygon] at hq' ⊢
            rw [hframe1 sel_id hsel_ne hsel_lt]
            exact hq'
          have hres := ihchar i hi_tl p' s' pa' tx' hlp q' hlq
          cases hsub' : sub p' q' with
          | None => rw [hsub'] at hres; exact hres
          | Despawn => rw [hsub'] at hres; exact hres
          | Some main' others' =>
            rw [hsub'] at hres
            refine ⟨hres.1, ?_⟩
            intro o ho
            obtain ⟨k, hk, hkl⟩ := hres.2 o ho
            exact ⟨k, by omega, hkl⟩

theorem al_sorted_keys_nodup {α : Type} {l : List (Nat × α)}
    (hs : al_sorted l = true) : (l.map Prod.fst).Nodup := by
  induction l with
  | nil => exact List.nodup_nil
  | cons hd tl ih =>
    obtain ⟨j, w⟩ := hd
    obtain ⟨hs', hlt⟩ := al_sorted_cons hs
    rw [List.map_cons, List.nodup_cons]
    refine ⟨?_, ih hs'⟩
    intro hmem
    obtain ⟨⟨k, v⟩, hkv, hk⟩ := List.mem_map.mp hmem
    obtain rfl : k = j := hk
    have := hlt k v (al_mem_lookup hs' hkv)
    omega

theorem collect_hollow_none_iff
    (hollow : VertexList → Option (VertexList × List VertexList)) :
    ∀ l : List (Nat × EntityData),
      collect_hollow hollow l = none ↔
        ∃ id p path tex, (id, EntityData.brush p true path tex) ∈ l ∧
          hollow p = none := by
  intro l
  induction l with
  | nil => simp [collect_hollow]
  | cons hd tl ih =>
    obtain ⟨id, e⟩ := hd
    cases e with
    | thing t pos s =>
      rw [show collect_hollow hollow ((id, EntityData.thing t pos s) :: tl) =
          collect_hollow hollow tl from rfl]
      rw [ih]
      constructor
      · rintro ⟨i, p, pa, tx, hm, hn⟩
        exact ⟨i, p, pa, tx, List.mem_cons_of_mem _ hm, hn⟩
      · rintro ⟨i, p, pa, tx, hm, hn⟩
        rcases List.mem_cons.mp hm with heq | hm'
        · exact absurd heq (by simp)
        · exact ⟨i, p, pa, tx, hm', hn⟩
    | brush p s path tex =>
      cases s with
      | false =>
        rw [show collect_hollow hollow
            ((id, EntityData.brush p false path tex) :: tl) =
            collect_hollow hollow tl from rfl]
        rw [ih]
        constructor
        · rintro ⟨i, pp, pa, tx, hm, hn⟩
          exact ⟨i, pp, pa, tx, List.mem_cons_of_mem _ hm, hn⟩
        · rintro ⟨i, pp, pa, tx, hm, hn⟩
          rcases List.mem_cons.mp hm with heq | hm'
          · exact absurd heq (by simp)
          · exact ⟨i, pp, pa, tx, hm', hn⟩
      | true =>
        rw [show collect_hollow hollow
            ((id, EntityData.brush p true path tex) :: tl) =
            (match hollow p with
            | none => none
            | some (main, walls) =>
              (collect_hollow hollow tl).map
                (fun l => (id, main, walls) :: l)) from rfl]
        cases hh : hollow p with
        | none =>
          simp only []
          constructor
          · intro _
            exact ⟨id, p, path, tex, List.mem_cons_self _ _, hh⟩
          · intro _; trivial
        | some mw =>
          obtain ⟨main, walls⟩ := mw
          simp only []
          constructor
          · intro hc
            have : collect_hollow hollow tl = none := by
              cases hct : collect_hollow hollow tl with
              | none => rfl
              | some r => rw [hct] at hc; exact absurd hc (by simp)
            obtain ⟨i, pp, pa, tx, hm, hn⟩ := ih.mp this
            exact ⟨i, pp, pa, tx, List.mem_cons_of_mem _ hm, hn⟩
          · rintro ⟨i, pp, pa, tx, hm, hn⟩
            rcases List.mem_cons.mp hm with heq | hm'
            · obtain ⟨rfl, rfl, rfl, rfl⟩ :
                  i = id ∧ pp = p ∧ pa = path ∧ tx = tex := by
                simpa [EntityData.brush.injEq] using heq
              rw [hh] at hn
              exact absurd hn (by simp)
            · have : collect_hollow hollow tl = none :=
                ih.mpr ⟨i, pp, pa, tx, hm', hn⟩
              rw [this]
              rfl

theorem collect_hollow_some_spec
    (hollow : VertexList → Option (VertexList × List VertexList)) :
    ∀ (l : List (Nat × EntityData))
      (results : List (Nat × VertexList × List VertexList)),
      collect_hollow hollow l = some results →
      (∀ r ∈ results, ∃ p path tex,
        (r.1, EntityData.brush p true path tex) ∈ l ∧
        hollow p = some (r.2.1, r.2.2)) ∧
      (∀ id p path tex, (id, EntityData.brush p true path tex) ∈ l →
        ∃ main walls, hollow p = some (main, walls) ∧
          (id, main, walls) ∈ results) ∧
      List.Sublist (results.map Prod.fst) (l.map Prod.fst) := by
  intro l
  induction l with
  | nil =>
    intro results h
    obtain rfl : ([] : List (Nat × VertexList × List VertexList)) = results := by
      simpa [collect_hollow] using h
    refine ⟨?_, ?_, by simp⟩
    · intro r hr; exact absurd hr (by simp)
    · intro id p path tex hm; exact absurd hm (by simp)
  | cons hd tl ih =>
    obtain ⟨id, e⟩ := hd
    intro results h
    cases e with
    | thing t pos s =>
      rw [show collect_hollow hollow ((id, EntityData.thing t pos s) :: tl) =
          collect_hollow hollow tl from rfl] at h
      obtain ⟨hsound, hcomp, hsub⟩ := ih results h
      refine ⟨?_, ?_, ?_⟩
      · intro r hr
        obtain ⟨p, pa, tx, hm, hh⟩ := hsound r hr
        exact ⟨p, pa, tx, List.mem_cons_of_mem _ hm, hh⟩
      · intro i p pa tx hm
        rcases List.mem_cons.mp hm with heq | hm'
        · exact absurd heq (by simp)
        · exact hcomp i p pa tx hm'
      · exact hsub.cons _
    | brush p s path tex =>
      cases s with
      | false =>
        rw [show collect_hollow hollow
            ((id, EntityData.brush p false path tex) :: tl) =
            collect_hollow hollow tl from rfl] at h
        obtain ⟨hsound, hcomp, hsub⟩ := ih results h
        refine ⟨?_, ?_, ?_⟩
        · intro r hr
          obtain ⟨pp, pa, tx, hm, hh⟩ := hsound r hr
          exact ⟨pp, pa, tx, List.mem_cons_of_mem _ hm, hh⟩
        · intro i pp pa tx hm
          rcases List.mem_cons.mp hm with heq | hm'
          · exact absurd heq (by simp)
          · exact hcomp i pp pa tx hm'
        · exact hsub.cons _
      | true =>
        rw [show collect_hollow hollow
            ((id, EntityData.brush p true path tex) :: tl) =
            (match hollow p with
            | none => none
            | some (main, walls) =>
              (collect_hollow hollow tl).map
                (fun l => (id, main, walls) :: l)) from rfl] at h
        cases hh : hollow p with
        | none => rw [hh] at h; exact absurd h (by simp)
        | some mw =>
          obtain ⟨main, walls⟩ := mw
          rw [hh] at h
          cases hct : collect_hollow hollow tl with
          | none => rw [hct] at h; exact absurd h (by simp)
          | some rs =>
            rw [hct] at h
            obtain rfl : (id, main, walls) :: rs = results := by simpa using h
            obtain ⟨hsound, hcomp, hsub⟩ := ih rs hct
            refine ⟨?_, ?_, ?_⟩
            · intro r hr
              rcases List.mem_cons.mp hr with rfl | hr'
              · exact ⟨p, path, tex, List.mem_cons_self _ _, hh⟩
              · obtain ⟨pp, pa, tx, hm, hhh⟩ := hsound r hr'
                exact ⟨pp, pa, tx, List.mem_cons_of_mem _ hm, hhh⟩
            · intro i pp pa tx hm
              rcases List.mem_cons.mp hm with heq | hm'
              · obtain ⟨rfl, rfl, rfl, rfl⟩ :
                    i = id ∧ pp = p ∧ pa = path ∧ tx = tex := by
                  simpa [EntityData.brush.injEq] using heq
                exact ⟨main, walls, hh, List.mem_cons_self _ _⟩
              · obtain ⟨m, ws, hhh, hmem⟩ := hcomp i pp pa tx hm'
                exact ⟨m, ws, hhh, List.mem_cons_of_mem _ hmem⟩
            · rw [List.map_cons, List.map_cons]
              exact hsub.cons₂ _

theorem hollow_fold_spec :
    ∀ (results : List (Nat × VertexList × List VertexList)) (w : World),
      al_sorted w.entities = true →
      al_keys_lt w.next_id w.entities = true →
      (results.map Prod.fst).Nodup →
      (∀ r ∈ results, ∃ p s path tex,
        al_lookup r.1 w.entities = some (.brush p s path tex)) →
      (al_sorted (results.foldl
          (fun acc r =>
            acc.replace_brush_with_partition r.2.2 r.1
              (EntityData.set_polygon r.2.1)) w).entities = true ∧
        w.next_id ≤ (results.foldl
          (fun acc r =>
            acc.replace_brush_with_partition r.2.2 r.1
              (EntityData.set_polygon r.2.1)) w).next_id ∧
        (∀ k, k ∉ results.map Prod.fst → k < w.next_id →
          al_lookup k (results.foldl
            (fun acc r =>
              acc.replace_brush_with_partition r.2.2 r.1
                (EntityData.set_polygon r.2.1)) w).entities =
            al_lookup k w.entities) ∧
        (∀ r ∈ results, ∀ p s path tex,
          al_lookup r.1 w.entities = some (.brush p s path tex) →
          al_lookup r.1 (results.foldl
            (fun acc r =>
              acc.replace_brush_with_partition r.2.2 r.1
                (EntityData.set_polygon r.2.1)) w).entities =
            some (.brush r.2.1 s path tex) ∧
          ∀ o ∈ r.2.2, ∃ k, w.next_id ≤ k ∧
            al_lookup k (results.foldl
              (fun acc r =>
                acc.replace_brush_with_partition r.2.2 r.1
                  (EntityData.set_polygon r.2.1)) w).entities =
              some (.brush o false none none))) := by
  intro results
  induction results with
  | nil =>
    intro w hs hb _ _
    refine ⟨hs, Nat.le_refl _, ?_, ?_⟩
    · intro k _ _; rfl
    · intro r hr; exact absurd hr (by simp)
  | cons r0 rl ih =>
    intro w hs hb hnd hpres
    obtain ⟨id, main, walls⟩ := r0
    obtain ⟨p, s, path, tex, hp⟩ := hpres _ (List.mem_cons_self _ _)
    have hid_lt : id < w.next_id := al_keys_lt_lookup hb hp
    have hid_rl : id ∉ rl.map Prod.fst := by
      rw [List.map_cons, List.nodup_cons] at hnd
      exact hnd.1
    have hnd_rl : (rl.map Prod.fst).Nodup := by
      rw [List.map_cons, List.nodup_cons] at hnd
      exact hnd.2
    obtain ⟨hrs, hrb, hrnext, hrlook, hrframe, hrmem⟩ :=
      w.replace_brush_spec walls id (EntityData.set_polygon main) hs hb hid_lt
    set w1 : World :=
      w.replace_brush_with_partition walls id (EntityData.set_polygon main)
      with hw1
    have hrl_lt : ∀ i ∈ rl.map Prod.fst, i < w.next_id := by
      intro i hi
      obtain ⟨rr, hrr, hrrfst⟩ := List.mem_map.mp hi
      obtain ⟨pp, ss, pa, tx, hh⟩ := hpres rr (List.mem_cons_of_mem _ hrr)
      rw [hrrfst] at hh
      exact al_keys_lt_lookup hb hh
    have hfold :
        List.foldl
          (fun acc r =>
            acc.replace_brush_with_partition r.2.2 r.1
              (EntityData.set_polygon r.2.1)) w ((id, main, walls) :: rl) =
        List.foldl
          (fun acc r =>
            acc.replace_brush_with_partition r.2.2 r.1
              (EntityData.set_polygon r.2.1)) w1 rl := rfl
    obtain ⟨ihs, ihn, ihframe, ihchar⟩ :=
      ih w1 hrs hrb hnd_rl
        (by
          intro rr hrr
          obtain ⟨pp, ss, pa, tx, hh⟩ := hpres rr (List.mem_cons_of_mem _ hrr)
          refine ⟨pp, ss, pa, tx, ?_⟩
          have hne : rr.1 ≠ id := by
            intro hcontra
            exact hid_rl (hcontra ▸ List.mem_map_of_mem Prod.fst hrr)
          rw [hrframe rr.1 hne (al_keys_lt_lookup hb hh)]
          exact hh)
    rw [hfold]
    have hnext1 : w1.next_id = w.next_id + walls.length := hrnext
    refine ⟨ihs, by omega, ?_, ?_⟩
    · intro k hk hklt
      have hk_rl : k ∉ rl.map Prod.fst := fun h => hk (by
        rw [List.map_cons]; exact List.mem_cons_of_mem _ h)
      have hk_ne : k ≠ id := fun h => hk (by
        rw [List.map_cons]; exact h ▸ List.mem_cons_self _ _)
      rw [ihframe k hk_rl (by omega), hrframe k hk_ne hklt]
    · intro rr hrr pp ss pa tx hpp
      rcases List.mem_cons.mp hrr with rfl | hrr'
      · rw [hp] at hpp
        obtain ⟨rfl, rfl, rfl, rfl⟩ :
            p = pp ∧ s = ss ∧ path = pa ∧ tex = tx := by
          simpa [EntityData.brush.injEq] using hpp
        constructor
        · rw [ihframe id hid_rl (by omega)]
          rw [hrlook, hp]
          rfl
        · intro o ho
          obtain ⟨k, hk, hkl⟩ := hrmem o ho
          have hkb : k < w1.next_id := al_keys_lt_lookup hrb hkl
          have hk_rl : k ∉ rl.map Prod.fst := fun h => by
            have := hrl_lt k h
            omega
          refine ⟨k, hk, ?_⟩
          rw [ihframe k hk_rl hkb]
          exact hkl
      · have hne : rr.1 ≠ id := by
          intro hcontra
          exact hid_rl (hcontra ▸ List.mem_map_of_mem Prod.fst hrr')
        have hpp1 : al_lookup rr.1 w1.entities =
            some (.brush pp ss pa tx) := by
          rw [hrframe rr.1 hne (al_keys_lt_lookup hb hpp)]
          exact hpp
        have hres := ihchar rr hrr' pp ss pa tx hpp1
        refine ⟨hres.1, ?_⟩
        intro o ho
        obtain ⟨k, hk, hkl⟩ := hres.2 o ho
        exact ⟨k, by omega, hkl⟩

theorem despawn_ids_spec :
    ∀ (ids : List Nat) (w : World), al_sorted w.entities = true →
      (al_sorted (despawn_ids ids w).entities = true ∧
        (despawn_ids ids w).next_id = w.next_id ∧
        (∀ n, al_keys_lt n w.entities = true →
          al_keys_lt n (despawn_ids ids w).entities = true) ∧
        (∀ k, al_lookup k (despawn_ids ids w).entities =
            al_lookup k w.entities ∨
          al_lookup k (despawn_ids ids w).entities = none)) := by
  intro ids
  induction ids with
  | nil =>
    intro w hs
    exact ⟨hs, rfl, fun n hn => hn, fun k => Or.inl rfl⟩
  | cons id tl ih =>
    intro w hs
    have hstep : despawn_ids (id :: tl) w = despawn_ids tl (w.despawn id) := rfl
    have hs1 : al_sorted (w.despawn id).entities = true := by
      simpa [World.despawn] using al_sorted_erase id hs
    obtain ⟨ihs, ihn, ihk, ihl⟩ := ih (w.despawn id) hs1
    rw [hstep]
    refine ⟨ihs, ihn, ?_, ?_⟩
    · intro n hn
      refine ihk n ?_
      simpa [World.despawn] using al_keys_lt_erase hn
    · intro k
      rcases ihl k with h | h
      · rw [h]
        by_cases hk : k = id
        · subst hk
          right
          simpa [World.despawn] using al_lookup_erase_self hs
        · left
          simpa [World.despawn] using al_lookup_erase_ne w.entities hk
      · right; exact h

theorem despawn_selected_lookup (w : World) (hs : al_sorted w.entities = true)
    (k : Nat) :
    al_lookup k w.despawn_selected_brushes.entities =
      match al_lookup k w.entities with
      | some (.brush _ true _ _) => none
      | some e => some e
      | none => none := by
  show al_lookup k (w.entities.filter _) = _
  rw [al_lookup_filter _ hs]
  cases hl : al_lookup k w.entities with
  | none => rfl
  | some e =>
    cases e with
    | brush p s path tex => cases s <;> rfl
    | thing t pos s => rfl

theorem mem_selected_brushes_ids (w : World) (hs : al_sorted w.entities = true)
    (id : Nat) :
    id ∈ w.selected_brushes_ids ↔
      ∃ p path tex,
        al_lookup id w.entities = some (.brush p true path tex) := by
  constructor
  · intro hmem
    obtain ⟨⟨i, e⟩, hin, hf⟩ := List.mem_filterMap.mp hmem
    cases e with
    | thing t pos s => exact absurd hf (by simp)
    | brush p s path tex =>
      cases s with
      | false => exact absurd hf (by simp)
      | true =>
        obtain rfl : i = id := by simpa using hf
        exact ⟨p, path, tex, al_mem_lookup hs hin⟩
  · rintro ⟨p, path, tex, hl⟩
    refine List.mem_filterMap.mpr ⟨(id, .brush p true path tex), ?_, rfl⟩
    exact al_lookup_mem hl

/-- Whether the active tool is the map-preview overlay. -/
def ActiveTool.is_map_preview : ActiveTool → Bool
  | .MapPreview _ _ _ => true
  | _ => false

/-- Whether the active tool is the zoom overlay. -/
def ActiveTool.is_zoom : ActiveTool → Bool
  | .Zoom _ _ => true
  | _ => false

/-- C1: `Snap::new` returns `Snap::None` exactly when a multi-frame change is
ongoing or no brush is selected; otherwise the active tool variant
deterministically selects exactly one snap kind (vertex tool → Vertexes, side
tool → Sides, path tool → PathNodes, thing tool → Things, entity tool →
Entities, anything else → Brushes). -/
theorem snap_kind_resolution (t : ActiveTool) (m : EntitiesManager) :
    ((t.ongoing_multi_frame_change = true ∨ m.any_selected_brushes = false) →
      Snap.new t m = Snap.None) ∧
    (t.ongoing_multi_frame_change = false → m.any_selected_brushes = true →
      (Snap.new t m ≠ Snap.None ∧
        Snap.new t m =
          match t with
          | .Entity _ => Snap.Entities
          | .Thing => Snap.Things
          | .Vertex _ => Snap.Vertexes
          | .Side _ _ => Snap.Sides
          | .Path _ => Snap.PathNodes
          | _ => Snap.Brushes)) := by
  constructor
  · intro h
    rcases h with h | h <;> simp [Snap.new, h]
  · intro h1 h2
    cases t <;> simp_all [Snap.new, ActiveTool.ongoing_multi_frame_change]

/-- C1 witness: a concrete evaluation of both branches of the rule — the
vertex tool with a brush selection snaps vertexes, and a clip tool with an
ongoing clip yields no snap kind. -/
theorem snap_kind_resolution_witness :
    Snap.new (ActiveTool.Vertex false) ⟨true, 0, 0, 0, false⟩ = Snap.Vertexes ∧
    Snap.new (ActiveTool.Clip true) ⟨true, 0, 0, 0, false⟩ = Snap.None :=
  ⟨((snap_kind_resolution (ActiveTool.Vertex false)
      ⟨true, 0, 0, 0, false⟩).2 (by decide) (by decide)).2,
    (snap_kind_resolution (ActiveTool.Clip true)
      ⟨true, 0, 0, 0, false⟩).1 (Or.inl (by decide))⟩

/-- C7 counterexample: `Hull::new` only asserts `top >= bottom` and
`right >= left`, so it happily constructs a hull with zero width and zero
height — degenerate hulls are not rejected by this constructor. -/
theorem hull_new_degenerate_counterexample :
    Hull.new 0 0 0 0 = some ⟨0, 0, 0, 0⟩ ∧
    (Hull.new 0 0 0 0).map Hull.width = some 0 ∧
    (Hull.new 0 0 0 0).map Hull.height = some 0 := by
  refine ⟨?_, ?_, ?_⟩ <;>
    simp [Hull.new, Hull.width, Hull.height]

/-- C7 amended: `Hull::new` rejects exactly the inverted configurations
(`top < bottom` or `right < left`), accepting zero width or height;
`Hull::from_opposite_vertexes` returns `None` for (narrowly around-equal, in
particular coincident) points; and `Hull::scaled` returns `ScaleResult::None`
whenever the resulting hull would have zero width or zero height, so every
hull it does return is non-degenerate. -/
theorem hull_degeneracy_guards (t b l r : ℚ) (a c : Vec2) (h : Hull)
    (corner : Corner) (p : Vec2) (hull : Hull) :
    ((Hull.new t b l r).isSome ↔ (b ≤ t ∧ l ≤ r)) ∧
    (Vec2.around_equal_narrow a c = true →
      Hull.from_opposite_vertexes a c = none) ∧
    (Hull.from_opposite_vertexes a a = none) ∧
    (((h.scaled corner p).2 = ScaleResult.Scale hull ∨
        (∃ q, (h.scaled corner p).2 = ScaleResult.Flip q hull)) →
      hull.width ≠ 0 ∧ hull.height ≠ 0) := by
  refine ⟨?_, ?_, ?_, ?_⟩
  · rw [Hull.new]
    by_cases hc : b ≤ t ∧ l ≤ r
    · rw [if_pos hc]
      simpa using hc
    · rw [if_neg hc]
      simpa using hc
  · intro hae
    rw [Hull.from_opposite_vertexes, if_pos hae]
  · have hself : Vec2.around_equal_narrow a a = true := by
      simp only [Vec2.around_equal_narrow, around_equal_narrow, sub_self,
        abs_zero, Bool.and_eq_true, decide_eq_true_eq]
      norm_num [narrow_epsilon]
    rw [Hull.from_opposite_vertexes, if_pos hself]
  · intro hres
    by_cases h1 : Vec2.around_equal_narrow p (h.corner_vertex corner) = true
    · rw [Hull.scaled, if_pos h1] at hres
      rcases hres with hres | ⟨q, hres⟩ <;> simp at hres
    · cases hfo : Hull.from_opposite_vertexes p
          (h.corner_vertex corner.opposite_corner) with
      | none =>
        rw [Hull.scaled, if_neg h1, hfo] at hres
        rcases hres with hres | ⟨q, hres⟩ <;> simp at hres
      | some hull' =>
        have hval : h.scaled corner p =
            if hull'.width = 0 ∨ hull'.height = 0 then
              (corner, ScaleResult.None)
            else
              ((scaled_flips h corner p).1,
                if (scaled_flips h corner p).2 = [] then
                  ScaleResult.Scale hull'
                else ScaleResult.Flip (scaled_flips h corner p).2 hull') := by
          rw [Hull.scaled, if_neg h1, hfo]
        rw [hval] at hres
        by_cases hdeg : hull'.width = 0 ∨ hull'.height = 0
        · rw [if_pos hdeg] at hres
          rcases hres with hres | ⟨q, hres⟩ <;> simp at hres
        · rw [if_neg hdeg] at hres
          push_neg at hdeg
          by_cases hq : (scaled_flips h corner p).2 = []
          · rw [if_pos hq] at hres
            rcases hres with hres | ⟨q, hres⟩ <;> simp at hres
            rw [← hres]
            exact hdeg
          · rw [if_neg hq] at hres
            rcases hres with hres | ⟨q, hres⟩ <;> simp at hres
            obtain ⟨-, hres⟩ := hres
            rw [← hres]
            exact hdeg

/-- C7 witness: the guards at concrete points — coincident points give no
hull, and inverted bounds are rejected while square bounds are accepted. -/
theorem hull_degeneracy_guards_witness :
    Hull.from_opposite_vertexes ⟨0, 0⟩ ⟨0, 0⟩ = none ∧
    (Hull.new 1 0 0 2).isSome := by
  constructor
  · exact (hull_degeneracy_guards 0 0 0 0 ⟨0, 0⟩ ⟨0, 0⟩ ⟨0, 0, 0, 0⟩
      Corner.TopRight ⟨0, 0⟩ ⟨0, 0, 0, 0⟩).2.1
      (by
        simp only [Vec2.around_equal_narrow, around_equal_narrow, sub_self,
          abs_zero, Bool.and_eq_true, decide_eq_true_eq]
        norm_num [narrow_epsilon])
  · exact (hull_degeneracy_guards 1 0 0 2 ⟨0, 0⟩ ⟨0, 0⟩ ⟨0, 0, 0, 0⟩
      Corner.TopRight ⟨0, 0⟩ ⟨0, 0, 0, 0⟩).1.mpr (by norm_num)

/-- A snapshot with control pressed, one existing brush and nothing else. -/
def ctrl_snapshot : ChangeConditions :=
  ⟨false, true, false, false, false, false, false, false, false, false, false,
    1, 0, 0, 0, 0, false⟩

/-- C2 counterexample: with `ctrl_pressed` set the Entity tool is unavailable
even though a brush exists, so the availability table's "iff"s do not hold for
every `ChangeConditions` snapshot — `conditions_met` first refuses every tool
while a multi-frame change is ongoing or ctrl/space is pressed. -/
theorem tool_availability_counterexample :
    Tool.conditions_met Tool.Entity ctrl_snapshot = false ∧
    0 < ctrl_snapshot.brushes_amount + ctrl_snapshot.things_amount := by
  decide

/-- C2 amended: provided no multi-frame change is ongoing and neither ctrl nor
space is pressed, the Entity tool is available iff at least one brush or thing
exists, Subtract iff exactly one brush is selected and more than one brush
exists, and Merge and Intersection iff more than one brush is selected;
unconditionally, with zero selected brushes the Vertex, Side, Clip, Scale,
Shear, Rotate and Hollow tools are always refused. -/
theorem tool_availability_table (cc : ChangeConditions) :
    (cc.ongoing_multi_frame_change = false → cc.ctrl_pressed = false →
      cc.space_pressed = false →
      ((Tool.conditions_met .Entity cc = true ↔
          0 < cc.brushes_amount + cc.things_amount) ∧
        (Tool.conditions_met .Subtract cc = true ↔
          (cc.selected_brushes_amount = 1 ∧ 1 < cc.brushes_amount)) ∧
        (Tool.conditions_met .Merge cc = true ↔
          1 < cc.selected_brushes_amount) ∧
        (Tool.conditions_met .Intersection cc = true ↔
          1 < cc.selected_brushes_amount))) ∧
    (cc.selected_brushes_amount = 0 →
      (Tool.conditions_met .Vertex cc = false ∧
        Tool.conditions_met .Side cc = false ∧
        Tool.conditions_met .Clip cc = false ∧
        Tool.conditions_met .Scale cc = false ∧
        Tool.conditions_met .Shear cc = false ∧
        Tool.conditions_met .Rotate cc = false ∧
        Tool.conditions_met .Hollow cc = false)) := by
  constructor
  · intro h1 h2 h3
    refine ⟨?_, ?_, ?_, ?_⟩ <;>
      simp only [Tool.conditions_met, h1, h2, h3, Bool.or_self,
        Bool.false_eq_true, if_false, decide_eq_true_eq, Bool.and_eq_true,
        beq_iff_eq]
  · intro h0
    refine ⟨?_, ?_, ?_, ?_, ?_, ?_, ?_⟩ <;>
      simp [Tool.conditions_met, h0]

/-- C2 witness: the amended table evaluated at concrete snapshots — Subtract
available with one of two brushes selected, Vertex refused with no
selection. -/
theorem tool_availability_table_witness :
    Tool.conditions_met Tool.Subtract
        ⟨false, false, false, false, false, false, false, false, false, false,
          false, 2, 1, 0, 0, 0, false⟩ = true ∧
    Tool.conditions_met Tool.Vertex ctrl_snapshot = false := by
  constructor
  · exact (((tool_availability_table
      ⟨false, false, false, false, false, false, false, false, false, false,
        false, 2, 1, 0, 0, 0, false⟩).1 rfl rfl rfl).2.1).mpr
      (by constructor <;> decide)
  · exact ((tool_availability_table ctrl_snapshot).2 rfl).1

/-- C3: `ActiveTool::change` fires its fatal assertions exactly when the
requested tool's change conditions are unmet or a multiframe edit is in
progress, and otherwise succeeds; `Core::undo` and `Core::redo` assert that
undo/redo is available (no ongoing multi-frame change) before applying
history. -/
theorem change_and_undo_redo_guards (self : ActiveTool) (tool : Tool)
    (mf : Bool) (cc : ChangeConditions) (c : Core) (h : EditsHistory)
    (w : World) :
    ((tool.change_conditions_met cc = false ∨ mf = true) →
      ∃ e, self.change tool mf cc = .error e) ∧
    (tool.change_conditions_met cc = true → mf = false →
      ∃ t', self.change tool mf cc = .ok t') ∧
    (c.active_tool.ongoing_multi_frame_change = true →
      ((∃ e, c.undo h w = .error e) ∧ (∃ e, c.redo h w = .error e))) ∧
    (c.active_tool.ongoing_multi_frame_change = false →
      (c.undo h w = .ok (h.undo w) ∧ c.redo h w = .ok (h.redo w))) := by
  refine ⟨?_, ?_, ?_, ?_⟩
  · intro hguard
    rw [ActiveTool.change.eq_def]
    by_cases hmet : tool.change_conditions_met cc = true
    · have hmf : mf = true := by
        rcases hguard with hg | hg
        · rw [hmet] at hg; exact absurd hg (by simp)
        · exact hg
      rw [hmet, hmf]
      exact ⟨_, rfl⟩
    · rw [Bool.not_eq_true] at hmet
      rw [hmet]
      exact ⟨_, rfl⟩
  · intro hmet hmf
    rw [ActiveTool.change.eq_def, hmet, hmf]
    simp only [Bool.not_true, Bool.false_eq_true, if_false]
    split
    · exact ⟨_, rfl⟩
    · exact ⟨_, rfl⟩
  · intro hon
    constructor
    · rw [Core.undo, Core.undo_redo_available, hon]
      exact ⟨_, rfl⟩
    · rw [Core.redo, Core.undo_redo_available, hon]
      exact ⟨_, rfl⟩
  · intro hoff
    constructor
    · rw [Core.undo, Core.undo_redo_available, hoff]
      rfl
    · rw [Core.redo, Core.undo_redo_available, hoff]
      rfl

/-- C3 witness: the guards evaluated at concrete inputs — requesting the
Vertex tool with nothing selected errors, requesting the Entity tool with a
brush present succeeds, and undo during an ongoing clip errors. -/
theorem change_and_undo_redo_guards_witness :
    (∃ e, ActiveTool.change ActiveTool.default Tool.Vertex false ctrl_snapshot =
      .error e) ∧
    (∃ t', ActiveTool.change ActiveTool.default Tool.Entity false
      ⟨false, false, false, false, false, false, false, false, false, false,
        false, 2, 1, 0, 0, 0, false⟩ = .ok t') ∧
    (∃ e, Core.undo ⟨ActiveTool.Clip true⟩ ⟨[], []⟩ ⟨[], [], [], 0⟩ =
      .error e) := by
  refine ⟨?_, ?_, ?_⟩
  · exact (change_and_undo_redo_guards ActiveTool.default Tool.Vertex false
      ctrl_snapshot ⟨ActiveTool.default⟩ ⟨[], []⟩ ⟨[], [], [], 0⟩).1
      (Or.inl (by decide))
  · exact (change_and_undo_redo_guards ActiveTool.default Tool.Entity false
      ⟨false, false, false, false, false, false, false, false, false, false,
        false, 2, 1, 0, 0, 0, false⟩ ⟨ActiveTool.default⟩ ⟨[], []⟩
      ⟨[], [], [], 0⟩).2.1 (by decide) rfl
  · exact ((change_and_undo_redo_guards ActiveTool.default Tool.Entity false
      ctrl_snapshot ⟨ActiveTool.Clip true⟩ ⟨[], []⟩ ⟨[], [], [], 0⟩).2.2.1
      (by decide)).1

/-- C5 counterexample: toggling map preview twice starting from the
map-preview tool itself re-enters the preview with movement simulators and
animators freshly computed from the current bundle, which need not equal the
stale snapshots stored in the original tool — so the double toggle is not the
identity on every active tool. -/
theorem preview_toggle_counterexample :
    ActiveTool.toggle_map_preview
        (ActiveTool.toggle_map_preview
          (ActiveTool.MapPreview ActiveTool.Thing 1 1) ⟨0, 0⟩) ⟨0, 0⟩ ≠
      ActiveTool.MapPreview ActiveTool.Thing 1 1 := by
  decide

/-- C5 amended: entering the Zoom tool boxes the previously active tool and
exiting restores exactly that boxed tool; entering the MapPreview tool boxes
the previously active tool, and for every tool that is not already the
map-preview overlay, toggling map preview twice is the identity on the active
tool state. -/
theorem overlay_tools_box_and_restore (t : ActiveTool) (ds : Option Hull)
    (b b' : PreviewBundle) :
    (ZoomTool.tool ds t = ActiveTool.Zoom ds t ∧
      ActiveTool.zoom_exit (ZoomTool.tool ds t) = t) ∧
    (t.is_map_preview = false →
      (ActiveTool.toggle_map_preview t b =
          ActiveTool.MapPreview t b.movement_simulators b.texture_animators ∧
        ActiveTool.toggle_map_preview (ActiveTool.toggle_map_preview t b) b' =
          t)) := by
  refine ⟨⟨rfl, rfl⟩, ?_⟩
  intro hnp
  cases t <;> simp_all [ActiveTool.is_map_preview, ActiveTool.toggle_map_preview,
    MapPreviewTool.tool]

/-- C5 witness: the double toggle evaluated at the thing tool with two
different bundles. -/
theorem overlay_tools_box_and_restore_witness :
    ActiveTool.toggle_map_preview
        (ActiveTool.toggle_map_preview ActiveTool.Thing ⟨1, 2⟩) ⟨3, 4⟩ =
      ActiveTool.Thing :=
  ((overlay_tools_box_and_restore ActiveTool.Thing none ⟨1, 2⟩ ⟨3, 4⟩).2
    (by decide)).2

/-- C8 counterexample: the per-frame fallback leaves a Clip tool with an
ongoing clip unchanged even when the map holds zero brushes, whereas the
claimed rule ("every brush-selection-dependent tool reverts to the default
tool when zero brushes exist") would force a switch to the default draw
tool. -/
theorem fallback_counterexample :
    ActiveTool.fallback (ActiveTool.Clip true) ⟨false, 5, 0, 0, false⟩ 0 =
        ActiveTool.Clip true ∧
      ActiveTool.Clip true ≠ ActiveTool.default ∧
      (⟨false, 5, 0, 0, false⟩ : EntitiesManager).brushes_amount = 0 := by
  decide

/-- C8 amended: the per-frame fallback never switches the Draw, Thing and
MapPreview tools; the Entity tool reverts to the default tool iff the map
contains zero entities; a Clip tool mid-clip, a Side tool mid-intrusion, a
Paint tool while any entity is selected or any prop is stored, and a Path
tool while any entity is selected are left unchanged; every other
brush-selection-dependent tool reverts to the default tool when zero brushes
exist, and otherwise reverts to the Entity tool when its selection
precondition fails (zero selected brushes, or a selected-brush count
different from one for Subtract); for the Zoom overlay the rule is applied to
the wrapped previous tool. -/
theorem fallback_spec (m : EntitiesManager) (props : Nat) (ds : Option Hull)
    (t : ActiveTool) (ongoing : Bool) (subs : List Nat)
    (prev : ActiveTool) (mv an : Nat) :
    (ActiveTool.fallback (.Draw ongoing) m props = .Draw ongoing ∧
      ActiveTool.fallback .Thing m props = .Thing ∧
      ActiveTool.fallback (.MapPreview prev mv an) m props =
        .MapPreview prev mv an) ∧
    (ActiveTool.fallback (.Entity ongoing) m props =
      if m.entities_amount = 0 then ActiveTool.default else .Entity ongoing) ∧
    (ActiveTool.fallback (.Clip true) m props = .Clip true ∧
      ActiveTool.fallback (.Side ongoing true) m props = .Side ongoing true ∧
      ((m.any_selected_entities = true ∨ props ≠ 0) →
        ActiveTool.fallback (.Paint ongoing) m props = .Paint ongoing) ∧
      (m.any_selected_entities = true →
        ActiveTool.fallback (.Path ongoing) m props = .Path ongoing)) ∧
    (m.brushes_amount = 0 →
      (ActiveTool.fallback (.Vertex ongoing) m props = ActiveTool.default ∧
        ActiveTool.fallback (.Side ongoing false) m props = ActiveTool.default ∧
        ActiveTool.fallback (.Clip false) m props = ActiveTool.default ∧
        ActiveTool.fallback .Shatter m props = ActiveTool.default ∧
        ActiveTool.fallback (.Subtract subs) m props = ActiveTool.default ∧
        ActiveTool.fallback (.Scale ongoing) m props = ActiveTool.default ∧
        ActiveTool.fallback (.Shear ongoing) m props = ActiveTool.default ∧
        ActiveTool.fallback (.Rotate ongoing) m props = ActiveTool.default ∧
        ActiveTool.fallback .Flip m props = ActiveTool.default ∧
        (m.any_selected_entities = false → props = 0 →
          ActiveTool.fallback (.Paint ongoing) m props = ActiveTool.default) ∧
        (m.any_selected_entities = false →
          ActiveTool.fallback (.Path ongoing) m props = ActiveTool.default))) ∧
    (m.brushes_amount ≠ 0 →
      (ActiveTool.fallback (.Subtract subs) m props =
          (if m.selected_brushes_amount = 1 then .Subtract subs
            else .Entity false) ∧
        ActiveTool.fallback (.Vertex ongoing) m props =
          (if m.selected_brushes_amount ≠ 0 then .Vertex ongoing
            else .Entity false) ∧
        ActiveTool.fallback (.Side ongoing false) m props =
          (if m.selected_brushes_amount ≠ 0 then .Side ongoing false
            else .Entity false) ∧
        ActiveTool.fallback (.Clip false) m props =
          (if m.selected_brushes_amount ≠ 0 then .Clip false
            else .Entity false) ∧
        ActiveTool.fallback .Shatter m props =
          (if m.selected_brushes_amount ≠ 0 then .Shatter else .Entity false) ∧
        ActiveTool.fallback (.Scale ongoing) m props =
          (if m.selected_brushes_amount ≠ 0 then .Scale ongoing
            else .Entity false) ∧
        ActiveTool.fallback (.Shear ongoing) m props =
          (if m.selected_brushes_amount ≠ 0 then .Shear ongoing
            else .Entity false) ∧
        ActiveTool.fallback (.Rotate ongoing) m props =
          (if m.selected_brushes_amount ≠ 0 then .Rotate ongoing
            else .Entity false) ∧
        ActiveTool.fallback .Flip m props =
          (if m.selected_brushes_amount ≠ 0 then .Flip else .Entity false) ∧
        (m.any_selected_entities = false → props = 0 →
          ActiveTool.fallback (.Paint ongoing) m props =
            (if m.selected_brushes_amount ≠ 0 then .Paint ongoing
              else .Entity false)) ∧
        (m.any_selected_entities = false →
          ActiveTool.fallback (.Path ongoing) m props =
            (if m.selected_brushes_amount ≠ 0 then .Path ongoing
              else .Entity false)))) ∧
    (t.is_zoom = false →
      ActiveTool.fallback (.Zoom ds t) m props =
        .Zoom ds (ActiveTool.fallback t m props)) := by
  refine ⟨⟨rfl, rfl, rfl⟩, ?_, ⟨rfl, rfl, ?_, ?_⟩, ?_, ?_, ?_⟩
  · by_cases he : m.entities_amount = 0 <;>
      simp [ActiveTool.fallback, ActiveTool.fallback_inner, he]
  · intro hg
    rcases hg with hg | hg <;>
      simp [ActiveTool.fallback, ActiveTool.fallback_inner, hg]
  · intro hg
    simp [ActiveTool.fallback, ActiveTool.fallback_inner, hg]
  · intro hz
    refine ⟨?_, ?_, ?_, ?_, ?_, ?_, ?_, ?_, ?_, ?_, ?_⟩ <;>
      first
        | (intro ha hb
           simp [ActiveTool.fallback, ActiveTool.fallback_inner, hz, ha, hb])
        | (intro ha
           simp [ActiveTool.fallback, ActiveTool.fallback_inner, hz, ha])
        | simp [ActiveTool.fallback, ActiveTool.fallback_inner, hz]
  · intro hz
    refine ⟨?_, ?_, ?_, ?_, ?_, ?_, ?_, ?_, ?_, ?_, ?_⟩ <;>
      first
        | (intro ha hb
           by_cases hsel : m.selected_brushes_amount = 0 <;>
            simp_all [ActiveTool.fallback, ActiveTool.fallback_inner])
        | (intro ha
           by_cases hsel : m.selected_brushes_amount = 0 <;>
            simp_all [ActiveTool.fallback, ActiveTool.fallback_inner])
        | (by_cases hsel : m.selected_brushes_amount = 0 <;>
            by_cases hsub : m.selected_brushes_amount = 1 <;>
            simp_all [ActiveTool.fallback, ActiveTool.fallback_inner])
  · intro hz
    cases t <;> simp_all [ActiveTool.fallback, ActiveTool.is_zoom]

/-- C8 witness: the amended rule evaluated at concrete states — a vertex tool
with no brushes on the map falls back to the default draw tool, and a
subtract tool with two selected brushes falls back to the entity tool. -/
theorem fallback_spec_witness :
    ActiveTool.fallback (ActiveTool.Vertex false) ⟨false, 3, 0, 0, false⟩ 0 =
        ActiveTool.default ∧
    ActiveTool.fallback (ActiveTool.Subtract []) ⟨true, 3, 3, 2, true⟩ 0 =
        ActiveTool.Entity false := by
  constructor
  · exact ((fallback_spec ⟨false, 3, 0, 0, false⟩ 0 none ActiveTool.Thing
      false [] ActiveTool.Thing 0 0).2.2.2.1 rfl).1
  · have h := ((fallback_spec ⟨true, 3, 3, 2, true⟩ 0 none ActiveTool.Thing
      false [] ActiveTool.Thing 0 0).2.2.2.2.1 (by decide)).1
    simpa using h

/-- C4: for any non-empty frame of valid edit records pushed in one frame,
`undo()` restores the byte-identical pre-frame world and `redo()` then
restores the byte-identical post-frame world and history; and applying any
single valid record and immediately undoing it leaves the world bit-for-bit
identical, because every record variant maps to exactly one do/undo interface
call pair. -/
theorem undo_redo_roundtrip (w : World) (fr : List EditRecord) (tag : String)
    (h : EditsHistory) (hwf : World.wf w = true)
    (hv : frame_valid fr w = true) (hne : fr ≠ []) :
    ((h.push_frame fr tag).undo (apply_frame fr w)).2 = w ∧
    ((h.push_frame fr tag).undo (apply_frame fr w)).1.redo
        ((h.push_frame fr tag).undo (apply_frame fr w)).2 =
      (h.push_frame fr tag, apply_frame fr w) ∧
    (∀ r : EditRecord, EditRecord.valid r w = true →
      r.unapply (r.apply w) = w) := by
  have hfe : fr.isEmpty = false := by
    cases fr
    · exact absurd rfl hne
    · rfl
  have hpush : h.push_frame fr tag =
      ⟨(fr, tag) :: h.undo_stack, []⟩ := by
    simp [EditsHistory.push_frame, hfe]
  have hrt : unapply_frame fr (apply_frame fr w) = w :=
    frame_roundtrip fr w hwf hv
  have hundo : (h.push_frame fr tag).undo (apply_frame fr w) =
      (⟨h.undo_stack, [(fr, tag)]⟩, w) := by
    rw [hpush]
    show ((⟨(fr, tag) :: h.undo_stack, []⟩ : EditsHistory).undo
      (apply_frame fr w)) = _
    rw [EditsHistory.undo]
    simp [hrt]
  refine ⟨by rw [hundo], ?_, ?_⟩
  · rw [hundo]
    show EditsHistory.redo ⟨h.undo_stack, [(fr, tag)]⟩ w = _
    rw [EditsHistory.redo]
    simp [hpush]
  · intro r hvr
    exact r.unapply_apply w hwf hvr

/-- C4 witness: a one-record frame (selecting brush 1) pushed on an empty
history — undo restores the deselected world, redo restores the selected
world and the pushed history. -/
theorem undo_redo_roundtrip_witness :
    ((EditsHistory.push_frame ⟨[], []⟩ [EditRecord.entity_selection 1] "sel").undo
        (apply_frame [EditRecord.entity_selection 1]
          ⟨[(1, EntityData.brush [] false none none)], [], [], 2⟩)).2 =
      ⟨[(1, EntityData.brush [] false none none)], [], [], 2⟩ := by
  exact (undo_redo_roundtrip
    ⟨[(1, EntityData.brush [] false none none)], [], [], 2⟩
    [EditRecord.entity_selection 1] "sel" ⟨[], []⟩ (by decide) (by decide)
    (by decide)).1

/-- C6: when the subtract tool applies the subtraction, every subtractee with
a disjoint (`None`) result is left unchanged, one with a `Despawn` result is
despawned, and one with a `Some {main, others}` result keeps its entity id
alive with its polygon replaced by `main` (and is selected) while the `others`
polygons are spawned as new brushes; the frame's edit tag is overridden to
"Brushes Subtraction". -/
theorem subtract_tool_spec (sub : VertexList → VertexList → SubtractResult)
    (w : World) (sel_id : Nat) (subtractees : List Nat)
    (hs : al_sorted w.entities = true)
    (hb : al_keys_lt w.next_id w.entities = true)
    (hnd : subtractees.Nodup)
    (hsel : sel_id ∉ subtractees)
    (hbr : ∀ i ∈ subtractees, ∃ p s path tex,
      al_lookup i w.entities = some (.brush p s path tex))
    (hq0 : ∃ q0, w.brush_polygon sel_id = some q0) :
    (SubtractTool.subtract sub w sel_id subtractees).2 =
      some "Brushes Subtraction" ∧
    (∀ i ∈ subtractees, ∀ p s path tex,
      al_lookup i w.entities = some (.brush p s path tex) →
      ∀ q, w.brush_polygon sel_id = some q →
      match sub p q with
      | .None =>
        al_lookup i
            (SubtractTool.subtract sub w sel_id subtractees).1.entities =
          some (.brush p s path tex)
      | .Despawn =>
        al_lookup i
            (SubtractTool.subtract sub w sel_id subtractees).1.entities = none
      | .Some main others =>
        al_lookup i
            (SubtractTool.subtract sub w sel_id subtractees).1.entities =
          some (.brush main true path tex) ∧
        ∀ o ∈ others, ∃ k, w.next_id ≤ k ∧
          al_lookup k
              (SubtractTool.subtract sub w sel_id subtractees).1.entities =
            some (.brush o false none none)) := by
  refine ⟨rfl, ?_⟩
  exact (subtract_fold_spec sub sel_id subtractees w hs hb hnd hsel hbr
    hq0).2.2.2.2

/-- C6 witness: subtracting with a geometry function that reports full
containment despawns the subtractee and overrides the tag. -/
theorem subtract_tool_spec_witness :
    (SubtractTool.subtract (fun _ _ => SubtractResult.Despawn)
        ⟨[(1, EntityData.brush [] true none none),
          (2, EntityData.brush [] false none none)], [], [], 3⟩ 1 [2]).2 =
      some "Brushes Subtraction" ∧
    al_lookup 2
        (SubtractTool.subtract (fun _ _ => SubtractResult.Despawn)
          ⟨[(1, EntityData.brush [] true none none),
            (2, EntityData.brush [] false none none)], [], [], 3⟩ 1
          [2]).1.entities = none := by
  have h := subtract_tool_spec (fun _ _ => SubtractResult.Despawn)
    ⟨[(1, EntityData.brush [] true none none),
      (2, EntityData.brush [] false none none)], [], [], 3⟩ 1 [2]
    (by decide) (by decide) (by decide) (by decide)
    (by
      intro i hi
      obtain rfl : i = 2 := by simpa using hi
      exact ⟨[], false, none, none, rfl⟩)
    ⟨[], rfl⟩
  exact ⟨h.1, h.2 2 (by decide) [] false none none rfl [] rfl⟩

/-- C9: the hollow command is atomic over the selection — if any selected
brush cannot be hollowed the whole operation aborts with no modification at
all, and otherwise every selected brush is replaced by its inset main polygon
(keeping its id, selection, path and texture) with its wall brushes spawned as
new brushes and the frame tagged "Brushes hollow". -/
theorem hollow_tool_spec
    (hollow : VertexList → Option (VertexList × List VertexList)) (w : World)
    (hs : al_sorted w.entities = true)
    (hb : al_keys_lt w.next_id w.entities = true)
    (hne : w.selected_brushes_ids ≠ []) :
    ((∃ id p path tex,
        al_lookup id w.entities = some (.brush p true path tex) ∧
        hollow p = none) →
      hollow_tool hollow w = (w, none)) ∧
    ((∀ id p path tex,
        al_lookup id w.entities = some (.brush p true path tex) →
        (hollow p).isSome) →
      ((hollow_tool hollow w).2 = some "Brushes hollow" ∧
        (∀ id p path tex,
          al_lookup id w.entities = some (.brush p true path tex) →
          ∀ main walls, hollow p = some (main, walls) →
          (al_lookup id (hollow_tool hollow w).1.entities =
              some (.brush main true path tex) ∧
            ∀ o ∈ walls, ∃ k, w.next_id ≤ k ∧
              al_lookup k (hollow_tool hollow w).1.entities =
                some (.brush o false none none))))) := by
  constructor
  · rintro ⟨id, p, path, tex, hl, hn⟩
    have hcoll : collect_hollow hollow w.entities = none :=
      (collect_hollow_none_iff hollow w.entities).mpr
        ⟨id, p, path, tex, al_lookup_mem hl, hn⟩
    rw [hollow_tool.eq_def, hcoll]
  · intro hall
    cases hcoll : collect_hollow hollow w.entities with
    | none =>
      obtain ⟨id, p, path, tex, hmem, hn⟩ :=
        (collect_hollow_none_iff hollow w.entities).mp hcoll
      have := hall id p path tex (al_mem_lookup hs hmem)
      rw [hn] at this
      exact absurd this (by simp)
    | some results =>
      obtain ⟨hsound, hcomp, hsub⟩ :=
        collect_hollow_some_spec hollow w.entities results hcoll
      have hres_ne : results ≠ [] := by
        obtain ⟨id0, hid0⟩ : ∃ id0, id0 ∈ w.selected_brushes_ids := by
          cases hselids : w.selected_brushes_ids with
          | nil => exact absurd hselids hne
          | cons a l => exact ⟨a, hselids ▸ List.mem_cons_self a l⟩
        obtain ⟨p0, pa0, tx0, hl0⟩ :=
          (mem_selected_brushes_ids w hs id0).mp hid0
        obtain ⟨m0, w0s, hh0, hm0⟩ := hcomp id0 p0 pa0 tx0 (al_lookup_mem hl0)
        intro hcon
        rw [hcon] at hm0
        exact absurd hm0 (by simp)
      have hht : hollow_tool hollow w =
          (results.foldl
            (fun acc r =>
              acc.replace_brush_with_partition r.2.2 r.1
                (EntityData.set_polygon r.2.1)) w,
            some "Brushes hollow") := by
        rw [hollow_tool.eq_def, hcoll]
        cases results with
        | nil => exact absurd rfl hres_ne
        | cons r rs => rfl
      have hnd : (results.map Prod.fst).Nodup :=
        (al_sorted_keys_nodup hs).sublist hsub
      have hpres : ∀ r ∈ results, ∃ p s path tex,
          al_lookup r.1 w.entities = some (.brush p s path tex) := by
        intro r hr
        obtain ⟨p, pa, tx, hmem, hh⟩ := hsound r hr
        exact ⟨p, true, pa, tx, al_mem_lookup hs hmem⟩
      obtain ⟨fs, fn, fframe, fchar⟩ := hollow_fold_spec results w hs hb hnd hpres
      rw [hht]
      refine ⟨rfl, ?_⟩
      intro id p path tex hl main walls hh
      obtain ⟨m', w', hh', hm'⟩ := hcomp id p path tex (al_lookup_mem hl)
      have hres := fchar (id, m', w') hm' p true path tex hl
      rw [hh] at hh'
      simp only [Option.some.injEq, Prod.mk.injEq] at hh'
      obtain ⟨h1, h2⟩ := hh'
      rw [h1, h2]
      exact hres

/-- C9 witness: hollowing one selected unit brush with a geometry function
that always succeeds replaces its polygon and tags the frame. -/
theorem hollow_tool_spec_witness :
    (hollow_tool (fun p => some (p, []))
        ⟨[(1, EntityData.brush [] true none none)], [], [], 2⟩).2 =
      some "Brushes hollow" ∧
    al_lookup 1
        (hollow_tool (fun p => some (p, []))
          ⟨[(1, EntityData.brush [] true none none)], [], [], 2⟩).1.entities =
      some (EntityData.brush [] true none none) := by
  have h := (hollow_tool_spec (fun p => some (p, []))
    ⟨[(1, EntityData.brush [] true none none)], [], [], 2⟩
    (by decide) (by decide) (by decide)).2
    (fun id p path tex _ => rfl)
  exact ⟨h.1, (h.2 1 [] none none rfl [] [] rfl).1⟩

/-- C10: when the intersection command runs with more than one selected brush
and the selected brushes have an empty common intersection — the first two
already disjoint, or the running intersection emptying against a later brush —
every selected brush is despawned and no new brush is spawned. -/
theorem intersection_tool_spec
    (inter : VertexList → VertexList → Option VertexList) (w : World)
    (drawn : List Nat) (id1 id2 : Nat) (rest : List Nat)
    (hs : al_sorted w.entities = true)
    (hb : al_keys_lt w.next_id w.entities = true)
    (hids : w.selected_brushes_ids = id1 :: id2 :: rest)
    (hempty : ∀ p1 p2, w.brush_polygon id1 = some p1 →
      w.brush_polygon id2 = some p2 →
      (inter p1 p2 = none ∨
        ∃ cp, inter p1 p2 = some cp ∧ accumulate inter w rest cp = none)) :
    (∀ i ∈ w.selected_brushes_ids,
      al_lookup i (intersection_tool inter w drawn).entities = none) ∧
    (intersection_tool inter w drawn).next_id = w.next_id ∧
    al_keys_lt w.next_id (intersection_tool inter w drawn).entities = true := by
  have hid1 : id1 ∈ w.selected_brushes_ids := by
    rw [hids]; exact List.mem_cons_self _ _
  have hid2 : id2 ∈ w.selected_brushes_ids := by
    rw [hids]; exact List.mem_cons_of_mem _ (List.mem_cons_self _ _)
  obtain ⟨p1, pa1, tx1, hl1⟩ := (mem_selected_brushes_ids w hs id1).mp hid1
  obtain ⟨p2, pa2, tx2, hl2⟩ := (mem_selected_brushes_ids w hs id2).mp hid2
  have hbp1 : w.brush_polygon id1 = some p1 := by
    rw [World.brush_polygon, hl1]
  have hbp2 : w.brush_polygon id2 = some p2 := by
    rw [World.brush_polygon, hl2]
  rcases hempty p1 p2 hbp1 hbp2 with hdisj | ⟨cp, hcp, hacc⟩
  · have hval : intersection_tool inter w drawn =
        w.despawn_selected_brushes := by
      rw [intersection_tool.eq_def, hids]
      simp only [hbp1, hbp2, hdisj]
    rw [hval]
    refine ⟨?_, rfl, al_keys_lt_filter _ hb⟩
    intro i hi
    obtain ⟨pi, pai, txi, hli⟩ := (mem_selected_brushes_ids w hs i).mp hi
    rw [despawn_selected_lookup w hs i, hli]
  · have hval : intersection_tool inter w drawn =
        (despawn_ids drawn w).despawn_selected_brushes := by
      rw [intersection_tool.eq_def, hids]
      simp only [hbp1, hbp2, hcp, hacc]
    obtain ⟨ds, dn, dk, dl⟩ := despawn_ids_spec drawn w hs
    rw [hval]
    refine ⟨?_, dn, al_keys_lt_filter _ (dk w.next_id hb)⟩
    intro i hi
    obtain ⟨pi, pai, txi, hli⟩ := (mem_selected_brushes_ids w hs i).mp hi
    rw [despawn_selected_lookup (despawn_ids drawn w) ds i]
    rcases dl i with h | h
    · rw [h, hli]
    · rw [h]

/-- C10 witness: two disjoint selected unit brushes — the intersection
command despawns both and spawns nothing. -/
theorem intersection_tool_spec_witness :
    al_lookup 1
        (intersection_tool (fun _ _ => none)
          ⟨[(1, EntityData.brush [] true none none),
            (2, EntityData.brush [] true none none)], [], [], 3⟩ []).entities =
      none ∧
    (intersection_tool (fun _ _ => none)
        ⟨[(1, EntityData.brush [] true none none),
          (2, EntityData.brush [] true none none)], [], [], 3⟩ []).next_id =
      3 := by
  have h := intersection_tool_spec (fun _ _ => none)
    ⟨[(1, EntityData.brush [] true none none),
      (2, EntityData.brush [] true none none)], [], [], 3⟩ [] 1 2 []
    (by decide) (by decide) (by decide)
    (fun p1 p2 _ _ => Or.inl rfl)
  exact ⟨h.1 1 (by decide), h.2.1⟩

end HillVacuum
